import Mathlib

/-!
Verification development for the tm-compiler repository: a shallow embedding in
Lean 4 of the data model and the passes under src/src, together with theorems
settling a list of behavioural claims about them.  Rust machine integers
(usize) are modelled as Nat, Rust HashMap as functional maps, Rust HashSet as
duplicate-free lists (with iteration order made explicit as a list parameter
where the source iterates over a set), and Rust panics / Err returns as Option
or dedicated result types.
-/

/-! ## Data model: locations, types, annotations (src/src/data) -/

/-- Source location attached to tokens and AST nodes
(src/src/data/token.rs, struct TokenLoc).  The field imp models the Rust
field named import. -/
structure TokenLoc where
  line : Nat
  col : Nat
  imp : Option String
deriving DecidableEq

/-- Modelled from the spec: the Type enum referenced by
src/src/annotater/ownership_checker.rs and src/src/annotater/union_resolver.rs.
Those files use a unit-like Tape variant and an UnresolvedUnion variant, a
revision of the enum that is not present in the snapshot (src/src/data/types.rs
holds a different revision with an owned flag on Tape and no UnresolvedUnion).
Spec section 3 lists the variants: Symbol, Union, Tape, Function(arg, ret),
UnresolvedUnion(id), and the optional bottom type Halt. -/
inductive Ty : Type where
  | symbol : Ty
  | union : Ty
  | tape : Ty
  | halt : Ty
  | function (arg ret : Ty) : Ty
  | unresolvedUnion (id : Nat) : Ty
deriving DecidableEq

/-- Modelled from the spec: the is_unresolved_union predicate on types, called
by the union resolver (src/src/annotater/union_resolver.rs line 166); its
declaration is not in the snapshot. -/
def Ty.is_unresolved_union : Ty → Bool
  | .unresolvedUnion _ => true
  | _ => false

/-- Annotation carried by type-annotated expressions
(src/src/annotater/type_checker.rs line 6: a pair of a type and a location). -/
structure Annot where
  ty : Ty
  loc : TokenLoc
deriving DecidableEq

/-! ## Data model: the expression tree (src/src/data/exp.rs)

The Rust AST is Exp<Annot>(Node, Annot) with Vec-valued arm and binding lists.
The vectors are modelled by the spine types Arms and Binds so that every
definition below is structurally recursive (and hence computable by rfl). -/

mutual
/-- AST node (src/src/data/exp.rs, enum Node). -/
inductive Node (α : Type) : Type where
  | identifier (id : String) : Node α
  | symbol (sym : String) : Node α
  | abort : Node α
  | union (lhs rhs : Exp α) : Node α
  | matchE (exp : Exp α) (arms : Arms α) : Node α
  | letE (exp : Exp α) (binds : Binds α) : Node α
  | function (arg : String) (exp : Exp α) : Node α
  | application (func arg : Exp α) : Node α
deriving DecidableEq
/-- Expression: a node paired with an annotation
(src/src/data/exp.rs, struct Exp<Annot>). -/
inductive Exp (α : Type) : Type where
  | mk (node : Node α) (annot : α) : Exp α
deriving DecidableEq
/-- Match arm (src/src/data/exp.rs, struct Arm). -/
inductive Arm (α : Type) : Type where
  | mk (catch_id : Option String) (pat : Pat α) (exp : Exp α) : Arm α
deriving DecidableEq
/-- Match pattern (src/src/data/exp.rs, enum Pat). -/
inductive Pat (α : Type) : Type where
  | union (u : Exp α) : Pat α
  | any : Pat α
deriving DecidableEq
/-- Spine list of match arms (models Vec<Arm<Annot>>). -/
inductive Arms (α : Type) : Type where
  | nil : Arms α
  | cons (hd : Arm α) (tl : Arms α) : Arms α
deriving DecidableEq
/-- Spine list of let bindings (models Vec<(String, bool, Exp<Annot>)>). -/
inductive Binds (α : Type) : Type where
  | nil : Binds α
  | cons (id : String) (optional : Bool) (exp : Exp α) (tl : Binds α) : Binds α
deriving DecidableEq
end

/-- Node component of an expression. -/
def Exp.node : Exp α → Node α
  | .mk n _ => n

/-- Annotation component of an expression. -/
def Exp.annot : Exp α → α
  | .mk _ a => a

/-- Body expression of an arm. -/
def Arm.exp : Arm α → Exp α
  | .mk _ _ e => e

/-! ## The matcher pass (src/src/simplifier/matcher.rs) -/

/-- Scan of the arm list performed by the find closure inside match_const
(src/src/simplifier/matcher.rs lines 10 to 18).  The closure first asserts
that the arm has no catch_id, then requires the pattern to be a single Symbol
literal (unreachable otherwise), then compares the pattern symbol with the
scrutinee symbol.  none models a panic of the assert or the unreachable;
some none models an exhausted scan; some (some arm) is the first match. -/
def find_matching_arm (sym : String) : Arms α → Option (Option (Arm α))
  | .nil => some none
  | .cons (.mk catchId pat exp) tl =>
    if catchId.isSome then none
    else
      match pat with
      | .union (.mk (.symbol p) pann) =>
        if p = sym then some (some (.mk catchId (.union (.mk (.symbol p) pann)) exp))
        else find_matching_arm sym tl
      | _ => none

/-- Constant-match folding pass (src/src/simplifier/matcher.rs, match_const).
If the expression is a match whose scrutinee is a symbol literal, the first
arm whose pattern symbol equals the scrutinee is selected and its body
returned; if no arm matches, a match with the same scrutinee and an empty arm
list is returned.  Every other expression is returned unchanged.  none models
a panic. -/
def match_const : Exp α → Option (Exp α)
  | .mk (.matchE (.mk (.symbol sym) sann) arms) ann =>
    match find_matching_arm sym arms with
    | none => none
    | some (some (.mk _ _ body)) => some body
    | some none => some (.mk (.matchE (.mk (.symbol sym) sann) .nil) ann)
  | .mk (.matchE scrut arms) ann => some (.mk (.matchE scrut arms) ann)
  | e => some e

/-- Check that one arm has no catch identifier and a singleton Symbol
pattern: the shape the pipeline guarantees when match_const runs. -/
def arm_good : Arm α → Bool
  | .mk c (.union (.mk (.symbol _) _)) _ => c.isNone
  | _ => false

/-- Check that every arm of a list is well shaped for match_const. -/
def arms_all_good : Arms α → Bool
  | .nil => true
  | .cons arm tl => arm_good arm && arms_all_good tl

/-- Specification-side scan: the first arm whose singleton pattern symbol
equals the scrutinee symbol. -/
def first_matching_arm (sym : String) : Arms α → Option (Arm α)
  | .nil => none
  | .cons (.mk c (.union (.mk (.symbol p) pann)) e) tl =>
    if p = sym then some (.mk c (.union (.mk (.symbol p) pann)) e)
    else first_matching_arm sym tl
  | .cons _ tl => first_matching_arm sym tl

/-- Check whether the scan performed by match_const reaches an ill-shaped arm
(non-empty catch_id or non-singleton pattern) before finding a match: this is
exactly the condition under which the source panics. -/
def scan_hits_bad_arm (sym : String) : Arms α → Bool
  | .nil => false
  | .cons (.mk c pat _) tl =>
    if c.isSome then true
    else
      match pat with
      | .union (.mk (.symbol p) _) => if p = sym then false else scan_hits_bad_arm sym tl
      | _ => true

/-- Shape predicate on whole expressions: if the top node is a match on a
symbol literal, all its arms must be well shaped (the pipeline precondition
for match_const). -/
def match_const_precondition : Exp α → Bool
  | .mk (.matchE (.mk (.symbol _) _) arms) _ => arms_all_good arms
  | _ => true

/-! ## Symbol-set helpers on expressions (src/src/data/exp.rs) -/

/-- Insertion into a duplicate-free list, modelling HashSet::insert. -/
def set_insert (set : List String) (s : String) : List String :=
  if s ∈ set then set else set ++ [s]

/-- Equality of duplicate-free lists as sets, modelling HashSet equality. -/
def same_set (s1 s2 : List String) : Bool :=
  s1.all (fun x => decide (x ∈ s2)) && s2.all (fun x => decide (x ∈ s1))

/-- Symbol collection over a union expression (src/src/data/exp.rs,
union_to_set).  The Rust function mutates a set and returns false when the
expression is not built from Symbol and Union nodes; none models that false
return (with short-circuiting, as in the source). -/
def union_to_set : Exp α → List String → Option (List String)
  | .mk (.symbol s) _, set => some (set_insert set s)
  | .mk (.union lhs rhs) _, set =>
    match union_to_set lhs set with
    | some set => union_to_set rhs set
    | none => none
  | _, _ => none

/-- Accumulating loop of union_from_set: wraps one further Union node around
the accumulator for every remaining symbol. -/
def union_from_set_go (acc : Exp α) : List String → α → Exp α
  | [], _ => acc
  | s :: tl, annot =>
    union_from_set_go (.mk (.union acc (.mk (.symbol s) annot)) annot) tl annot

/-- Union construction from a symbol set (src/src/data/exp.rs,
union_from_set).  The set iteration order is made explicit as a list; none
models the unwrap panic on an empty set. -/
def union_from_set (symbols : List String) (annot : α) : Option (Exp α) :=
  match symbols with
  | [] => none
  | s :: tl => some (union_from_set_go (.mk (.symbol s) annot) tl annot)

/-- Check that an expression is built only from Symbol and Union nodes. -/
def is_sym_union : Exp α → Bool
  | .mk (.symbol _) _ => true
  | .mk (.union lhs rhs) _ => is_sym_union lhs && is_sym_union rhs
  | _ => false

/-- Symbols of a Symbol/Union expression, in order, with duplicates. -/
def usyms : Exp α → List String
  | .mk (.symbol s) _ => [s]
  | .mk (.union lhs rhs) _ => usyms lhs ++ usyms rhs
  | _ => []

mutual
/-- Annotation-insensitive expression equivalence (src/src/data/exp.rs,
eq_ignore_annot).  Union nodes fall back to comparing accumulated symbol
sets; match arms are compared by an asymmetric scan, and let bindings by a
zip, exactly as in the source. -/
def eq_ignore_annot : Exp α → Exp α → Bool
  | .mk n1 _, .mk n2 _ => eq_ignore_annot_node n1 n2
/-- Node-level case analysis of eq_ignore_annot. -/
def eq_ignore_annot_node : Node α → Node α → Bool
  | .identifier id, .identifier id2 => id = id2
  | .symbol s, .symbol s2 => s = s2
  | .abort, .abort => true
  | .union lhs rhs, .union lhs2 rhs2 =>
    if eq_ignore_annot lhs lhs2 && eq_ignore_annot rhs rhs2 then true
    else
      match union_to_set lhs [] with
      | none => false
      | some set1 =>
        match union_to_set rhs set1 with
        | none => false
        | some set1 =>
          match union_to_set lhs2 [] with
          | none => false
          | some set2 =>
            match union_to_set rhs2 set2 with
            | none => false
            | some set2 => same_set set1 set2
  | .matchE e arms, .matchE e2 arms2 =>
    eq_ignore_annot e e2 && arms_subset_eq arms arms2
  | .letE e binds, .letE e2 binds2 =>
    eq_ignore_annot e e2 && binds_zip_eq binds binds2
  | .function arg e, .function arg2 e2 => arg = arg2 && eq_ignore_annot e e2
  | .application f x, .application f2 x2 =>
    eq_ignore_annot f f2 && eq_ignore_annot x x2
  | _, _ => false
/-- Arm comparison of eq_ignore_annot: every arm of the first list must have
a matching arm somewhere in the second list. -/
def arms_subset_eq : Arms α → Arms α → Bool
  | .nil, _ => true
  | .cons arm tl, arms2 => arm_found_in arm arms2 && arms_subset_eq tl arms2
/-- Scan of the second arm list for an arm equivalent to the given one. -/
def arm_found_in : Arm α → Arms α → Bool
  | _, .nil => false
  | .mk c p e, .cons (.mk c2 p2 e2) tl =>
    (pat_eq_ignore_annot p p2 && c = c2 && eq_ignore_annot e e2)
      || arm_found_in (.mk c p e) tl
/-- Pattern comparison (src/src/data/exp.rs, Pat::eq_ignore_annot). -/
def pat_eq_ignore_annot : Pat α → Pat α → Bool
  | .union lhs, .union rhs => eq_ignore_annot lhs rhs
  | .any, .any => true
  | _, _ => false
/-- Binding comparison of eq_ignore_annot: a zip that stops at the shorter
list; the optional-flag comparison compares the first binding's flag with
itself, as written in the source. -/
def binds_zip_eq : Binds α → Binds α → Bool
  | .nil, _ => true
  | .cons _ _ _ _, .nil => true
  | .cons id1 o1 e1 t1, .cons id2 _ e2 t2 =>
    (id1 = id2 && o1 = o1 && eq_ignore_annot e1 e2) && binds_zip_eq t1 t2
end

/-! ## The any-remover pass (src/src/simplifier/any_remover.rs) -/

/-- Union construction from the alphabet set
(src/src/simplifier/any_remover.rs, generate_union); textually the same
algorithm as union_from_set, duplicated in the source.  The set iteration
order is explicit; none models the unwrap panic on an empty alphabet. -/
def generate_union (symbols : List String) (annot : α) : Option (Exp α) :=
  match symbols with
  | [] => none
  | s :: tl => some (union_from_set_go (.mk (.symbol s) annot) tl annot)

mutual
/-- Removal of any patterns (src/src/simplifier/any_remover.rs, remove_any):
every Pat::Any becomes a Union of the whole alphabet, annotated with the arm
body's annotation.  none models the panic raised by generate_union when the
alphabet is empty. -/
def remove_any : Exp α → List String → Option (Exp α)
  | .mk (.union lhs rhs) a, alphabet =>
    match remove_any lhs alphabet, remove_any rhs alphabet with
    | some lhs, some rhs => some (.mk (.union lhs rhs) a)
    | _, _ => none
  | .mk (.matchE e arms) a, alphabet =>
    match remove_any e alphabet, remove_any_arms arms alphabet with
    | some e, some arms => some (.mk (.matchE e arms) a)
    | _, _ => none
  | .mk (.function arg e) a, alphabet =>
    match remove_any e alphabet with
    | some e => some (.mk (.function arg e) a)
    | none => none
  | .mk (.application f x) a, alphabet =>
    match remove_any f alphabet, remove_any x alphabet with
    | some f, some x => some (.mk (.application f x) a)
    | _, _ => none
  | e, _ => some e
/-- Arm traversal of remove_any. -/
def remove_any_arms : Arms α → List String → Option (Arms α)
  | .nil, _ => some .nil
  | .cons (.mk c pat e) tl, alphabet =>
    let newPat : Option (Pat α) :=
      match pat with
      | .union pexp =>
        match remove_any pexp alphabet with
        | some pexp => some (.union pexp)
        | none => none
      | .any =>
        match generate_union alphabet e.annot with
        | some u => some (.union u)
        | none => none
    match newPat, remove_any e alphabet, remove_any_arms tl alphabet with
    | some pat, some e, some tl => some (.cons (.mk c pat e) tl)
    | _, _, _ => none
end

mutual
/-- Check whether an expression contains a Pat::Any arm anywhere. -/
def has_any_arm : Exp α → Bool
  | .mk (.union lhs rhs) _ => has_any_arm lhs || has_any_arm rhs
  | .mk (.matchE e arms) _ => has_any_arm e || arms_have_any arms
  | .mk (.letE e binds) _ => has_any_arm e || binds_have_any binds
  | .mk (.function _ e) _ => has_any_arm e
  | .mk (.application f x) _ => has_any_arm f || has_any_arm x
  | _ => false
/-- Arm traversal of has_any_arm. -/
def arms_have_any : Arms α → Bool
  | .nil => false
  | .cons (.mk _ pat e) tl =>
    (match pat with
     | .any => true
     | .union pexp => has_any_arm pexp) || has_any_arm e || arms_have_any tl
/-- Binding traversal of has_any_arm. -/
def binds_have_any : Binds α → Bool
  | .nil => false
  | .cons _ _ e tl => has_any_arm e || binds_have_any tl
end

mutual
/-- Check whether an expression contains a Pat::Any arm in a position that
remove_any actually traverses: the pass does not descend into Let nodes
(its default case returns them unchanged), so Any arms below a Let are not
counted here. -/
def reachable_any_arm : Exp α → Bool
  | .mk (.union lhs rhs) _ => reachable_any_arm lhs || reachable_any_arm rhs
  | .mk (.matchE e arms) _ => reachable_any_arm e || arms_reachable_any arms
  | .mk (.function _ e) _ => reachable_any_arm e
  | .mk (.application f x) _ => reachable_any_arm f || reachable_any_arm x
  | _ => false
/-- Arm traversal of reachable_any_arm. -/
def arms_reachable_any : Arms α → Bool
  | .nil => false
  | .cons (.mk _ pat e) tl =>
    (match pat with
     | .any => true
     | .union pexp => reachable_any_arm pexp) || reachable_any_arm e
      || arms_reachable_any tl
end

/-! ## The get-remover pass (src/src/simplifier/get_remover.rs) -/

/-- Arm list built by remove_gets: one arm per alphabet letter, with no catch
identifier and with the letter's Symbol literal (annotated with type Symbol
and the application node's location) as both pattern and body. -/
def get_arms (alphabet : List String) (loc : TokenLoc) : Arms Annot :=
  match alphabet with
  | [] => .nil
  | sym :: tl =>
    .cons
      (.mk none (.union (.mk (.symbol sym) (Annot.mk .symbol loc)))
        (.mk (.symbol sym) (Annot.mk .symbol loc)))
      (get_arms tl loc)

/-- The get-remover pass (src/src/simplifier/get_remover.rs, remove_gets):
an application whose function node is the identifier get becomes a match on
the application's argument with one arm per alphabet letter; anything else is
returned unchanged.  The alphabet set iteration order is explicit. -/
def remove_gets (ast : Exp Annot) (alphabet : List String) : Exp Annot :=
  match ast with
  | .mk (.application (.mk (.identifier id) fann) arg) ann =>
    if id = "get" then .mk (.matchE arg (get_arms alphabet ann.loc)) ann
    else .mk (.application (.mk (.identifier id) fann) arg) ann
  | e => e

/-- Check whether the top node is an application of the identifier get. -/
def is_get_application : Exp α → Bool
  | .mk (.application (.mk (.identifier id) _) _) _ => id = "get"
  | _ => false

/-- Spine conversion from an ordinary list of arms, used to state remove_gets
against a list comprehension. -/
def arms_of_list : List (Arm α) → Arms α
  | [] => .nil
  | a :: tl => .cons a (arms_of_list tl)

/-! ## The identifier-dedup pass (src/src/simplifier/id_dedup.rs) -/

/-- Renaming map of the dedup pass, modelling HashMap<String, String>. -/
def RenMap : Type := String → Option String

/-- Registration of a binder in the renaming map
(src/src/simplifier/id_dedup.rs, push_id): an already-mapped name gains one
more leading underscore; a fresh name maps to itself. -/
def push_id (renames : RenMap) (id : String) : String × RenMap :=
  match renames id with
  | some renamed =>
    let renamed := "_" ++ renamed
    (renamed, fun k => if k = id then some renamed else renames k)
  | none => (id, fun k => if k = id then some id else renames k)

/-- Lookup of an identifier use (src/src/simplifier/id_dedup.rs, get_id). -/
def get_id (renames : RenMap) (id : String) : String :=
  match renames id with
  | some renamed => renamed
  | none => id

mutual
/-- Renaming traversal of the dedup pass (src/src/simplifier/id_dedup.rs,
traverse).  Union, Match, Function and Application nodes are traversed; match
patterns are traversed with the outer map, each arm clones the map before
pushing its catch identifier, and every other node (including Let) is
returned unchanged. -/
def id_dedup_traverse : Exp α → RenMap → Exp α
  | .mk (.identifier id) a, m => .mk (.identifier (get_id m id)) a
  | .mk (.union lhs rhs) a, m =>
    .mk (.union (id_dedup_traverse lhs m) (id_dedup_traverse rhs m)) a
  | .mk (.matchE e arms) a, m =>
    .mk (.matchE (id_dedup_traverse e m) (id_dedup_arms arms m)) a
  | .mk (.function arg e) a, m =>
    let p := push_id m arg
    .mk (.function p.1 (id_dedup_traverse e p.2)) a
  | .mk (.application f x) a, m =>
    .mk (.application (id_dedup_traverse f m) (id_dedup_traverse x m)) a
  | .mk n a, _ => .mk n a
/-- Arm traversal of the dedup pass. -/
def id_dedup_arms : Arms α → RenMap → Arms α
  | .nil, _ => .nil
  | .cons (.mk c pat e) tl, m =>
    let pat : Pat α :=
      match pat with
      | .union pexp => .union (id_dedup_traverse pexp m)
      | .any => .any
    let cp : Option String × RenMap :=
      match c with
      | some id => let p := push_id m id; (some p.1, p.2)
      | none => (none, m)
    .cons (.mk cp.1 pat (id_dedup_traverse e cp.2)) (id_dedup_arms tl m)
end

/-- Entry point of the dedup pass (src/src/simplifier/id_dedup.rs,
dedup_ids). -/
def dedup_ids (ast : Exp α) : Exp α :=
  id_dedup_traverse ast (fun _ => none)

/-- String of n underscore characters. -/
def und : Nat → String
  | 0 => ""
  | n + 1 => "_" ++ und n

mutual
/-- Specification-side renaming traversal, following the spec's words: the
map carries, for each source name, the number of enclosing binders of that
name; a binder of name b nested below n earlier binders of name b is renamed
to n underscores followed by b, and an identifier use is renamed to its
innermost enclosing binder's new name. -/
def spec_dedup_traverse : Exp α → (String → Option Nat) → Exp α
  | .mk (.identifier id) a, m =>
    .mk (.identifier (match m id with
      | some n => und n ++ id
      | none => id)) a
  | .mk (.union lhs rhs) a, m =>
    .mk (.union (spec_dedup_traverse lhs m) (spec_dedup_traverse rhs m)) a
  | .mk (.matchE e arms) a, m =>
    .mk (.matchE (spec_dedup_traverse e m) (spec_dedup_arms arms m)) a
  | .mk (.function arg e) a, m =>
    let n : Nat :=
      match m arg with
      | some n => n + 1
      | none => 0
    .mk (.function (und n ++ arg)
      (spec_dedup_traverse e (fun k => if k = arg then some n else m k))) a
  | .mk (.application f x) a, m =>
    .mk (.application (spec_dedup_traverse f m) (spec_dedup_traverse x m)) a
  | .mk n a, _ => .mk n a
/-- Arm traversal of the specification-side renaming. -/
def spec_dedup_arms : Arms α → (String → Option Nat) → Arms α
  | .nil, _ => .nil
  | .cons (.mk c pat e) tl, m =>
    let pat : Pat α :=
      match pat with
      | .union pexp => .union (spec_dedup_traverse pexp m)
      | .any => .any
    let cm : Option String × (String → Option Nat) :=
      match c with
      | some id =>
        let n : Nat :=
          match m id with
          | some n => n + 1
          | none => 0
        (some (und n ++ id), fun k => if k = id then some n else m k)
      | none => (none, m)
    .cons (.mk cm.1 pat (spec_dedup_traverse e cm.2)) (spec_dedup_arms tl m)
end

/-- Specification-side dedup entry point. -/
def spec_dedup_ids (ast : Exp α) : Exp α :=
  spec_dedup_traverse ast (fun _ => none)

mutual
/-- All binder names (function parameters and arm catch identifiers) of an
expression, in traversal order. -/
def binder_names : Exp α → List String
  | .mk (.union lhs rhs) _ => binder_names lhs ++ binder_names rhs
  | .mk (.matchE e arms) _ => binder_names e ++ arms_binder_names arms
  | .mk (.letE e binds) _ => binder_names e ++ binds_binder_names binds
  | .mk (.function arg e) _ => arg :: binder_names e
  | .mk (.application f x) _ => binder_names f ++ binder_names x
  | _ => []
/-- Arm traversal of binder_names. -/
def arms_binder_names : Arms α → List String
  | .nil => []
  | .cons (.mk c pat e) tl =>
    (match c with
     | some id => [id]
     | none => []) ++
    (match pat with
     | .union pexp => binder_names pexp
     | .any => []) ++ binder_names e ++ arms_binder_names tl
/-- Binding traversal of binder_names. -/
def binds_binder_names : Binds α → List String
  | .nil => []
  | .cons _ _ e tl => binder_names e ++ binds_binder_names tl
end

/-! ## The ownership checker (src/src/annotater/ownership_checker.rs) -/

/-- Removal from a set-as-list, modelling HashSet::remove. -/
def set_remove (set : List String) (x : String) : List String :=
  set.filter (fun y => y ≠ x)

/-- Union into a set-as-list, modelling HashSet::extend. -/
def set_extend (set other : List String) : List String :=
  other.foldl set_insert set

/-- Outcome of the ownership traversal: ok carries the consumed set,
userError models an Err return, unreachable models the unreachable panic on
an application whose function annotation is not a function type. -/
inductive OwnResult : Type where
  | ok (consumed : List String) : OwnResult
  | userError : OwnResult
  | unreachable : OwnResult
deriving DecidableEq

mutual
/-- Linearity traversal (src/src/annotater/ownership_checker.rs, traverse).
A tape-typed identifier errors when already consumed and is added to the
consumed set unless the position is borrowed; match arms restart from the
post-scrutinee snapshot and union their consumed sets; a function clears its
binder; an application dispatches on the function's annotated type: argument
borrowed for Tape to Symbol, rejected for Tape to anything else but Tape,
and consumed otherwise. -/
def ownership_traverse : Exp Annot → List String → Bool → OwnResult
  | .mk (.identifier id) a, consumed, is_ref =>
    if a.ty = .tape then
      if id ∈ consumed then .userError
      else if is_ref then .ok consumed
      else .ok (set_insert consumed id)
    else .ok consumed
  | .mk (.matchE mexp arms) _, consumed, is_ref =>
    match ownership_traverse mexp consumed false with
    | .ok consumed => ownership_arms arms consumed consumed is_ref
    | r => r
  | .mk (.function arg fexp) _, consumed, _ =>
    ownership_traverse fexp (set_remove consumed arg) false
  | .mk (.application func arg) _, consumed, _ =>
    match func.annot.ty with
    | .function argT retT =>
      match argT, retT with
      | .tape, .symbol =>
        (match ownership_traverse func consumed false with
         | .ok c => ownership_traverse arg c true
         | r => r)
      | .tape, o =>
        if o = .tape then
          match ownership_traverse func consumed false with
          | .ok c => ownership_traverse arg c false
          | r => r
        else .userError
      | _, _ =>
        match ownership_traverse func consumed false with
        | .ok c => ownership_traverse arg c false
        | r => r
    | _ => .unreachable
  | _, consumed, _ => .ok consumed
/-- Arm traversal of the ownership checker: each arm starts from the
post-scrutinee snapshot minus its catch identifier, and the outer consumed
set accumulates every arm's result. -/
def ownership_arms : Arms Annot → List String → List String → Bool → OwnResult
  | .nil, _, consumed, _ => .ok consumed
  | .cons (.mk c _ e) tl, initial, consumed, is_ref =>
    let arm_set : List String :=
      match c with
      | some id => set_remove initial id
      | none => initial
    match ownership_traverse e arm_set is_ref with
    | .ok arm_set => ownership_arms tl initial (set_extend consumed arm_set) is_ref
    | r => r
end

/-- Entry point of the ownership checker
(src/src/annotater/ownership_checker.rs, ownership_check); the Rust function
discards the final consumed set, which is kept here as an observation. -/
def ownership_check (ast : Exp Annot) : OwnResult :=
  ownership_traverse ast [] false

/-! ## The union resolver (src/src/annotater/union_resolver.rs) -/

/-- Renumbering of unresolved-union ids inside a type
(src/src/annotater/union_resolver.rs, fix_ids_in_type): every
UnresolvedUnion(0) receives the next fresh id, function types are traversed
argument first, and every other type is unchanged. -/
def fix_ids_in_type : Ty → Nat → Ty × Nat
  | .function arg ret, count =>
    let ac := fix_ids_in_type arg count
    let rc := fix_ids_in_type ret ac.2
    (.function ac.1 rc.1, rc.2)
  | .unresolvedUnion 0, count => (.unresolvedUnion count, count + 1)
  | t, count => (t, count)

mutual
/-- Renumbering traversal (src/src/annotater/union_resolver.rs, fix_ids):
the node's own annotation is renumbered before its children; Abort and Let
nodes hit the source's unreachable panic, modelled by none. -/
def fix_ids : Exp Annot → Nat → Option (Exp Annot × Nat)
  | .mk n (Annot.mk t loc), count =>
    let tc := fix_ids_in_type t count
    match n with
    | .identifier id => some (.mk (.identifier id) (Annot.mk tc.1 loc), tc.2)
    | .symbol sym => some (.mk (.symbol sym) (Annot.mk tc.1 loc), tc.2)
    | .union lhs rhs =>
      match fix_ids lhs tc.2 with
      | some (lhs, count) =>
        match fix_ids rhs count with
        | some (rhs, count) => some (.mk (.union lhs rhs) (Annot.mk tc.1 loc), count)
        | none => none
      | none => none
    | .matchE e arms =>
      match fix_ids e tc.2 with
      | some (e, count) =>
        match fix_ids_arms arms count with
        | some (arms, count) => some (.mk (.matchE e arms) (Annot.mk tc.1 loc), count)
        | none => none
      | none => none
    | .function arg e =>
      match fix_ids e tc.2 with
      | some (e, count) => some (.mk (.function arg e) (Annot.mk tc.1 loc), count)
      | none => none
    | .application f x =>
      match fix_ids f tc.2 with
      | some (f, count) =>
        match fix_ids x count with
        | some (x, count) => some (.mk (.application f x) (Annot.mk tc.1 loc), count)
        | none => none
      | none => none
    | _ => none
/-- Arm traversal of fix_ids: the pattern is renumbered before the body, as
in the source's struct-literal evaluation order. -/
def fix_ids_arms : Arms Annot → Nat → Option (Arms Annot × Nat)
  | .nil, count => some (.nil, count)
  | .cons (.mk c pat e) tl, count =>
    let pc : Option (Pat Annot × Nat) :=
      match pat with
      | .union pexp =>
        match fix_ids pexp count with
        | some (p, count) => some (.union p, count)
        | none => none
      | .any => some (.any, count)
    match pc with
    | some (pat, count) =>
      match fix_ids e count with
      | some (e, count) =>
        match fix_ids_arms tl count with
        | some (tl, count) => some (.cons (.mk c pat e) tl, count)
        | none => none
      | none => none
    | none => none
end

/-- Cast collection between two optional types
(src/src/annotater/union_resolver.rs, collect_casts_in_type): function types
decompose contravariantly in the argument; casts touching symbol, union or
unresolved-union ids are recorded over the id alphabet where 0 stands for
Symbol and 1 for Union. -/
def collect_casts_in_type : Option Ty → Option Ty → List (Nat × Nat)
  | some from_t, some to_t =>
    match from_t, to_t with
    | .function arg ret, .function arg2 ret2 =>
      collect_casts_in_type (some arg2) (some arg) ++
        collect_casts_in_type (some ret) (some ret2)
    | .unresolvedUnion f, .symbol => [(f, 0)]
    | .unresolvedUnion f, .union => [(f, 1)]
    | .symbol, .unresolvedUnion t => [(0, t)]
    | .union, .unresolvedUnion t => [(1, t)]
    | .unresolvedUnion f, .unresolvedUnion t => if f ≠ t then [(f, t)] else []
    | _, _ => []
  | _, _ => []
termination_by a b => sizeOf a + sizeOf b
decreasing_by
  all_goals (simp_wf; omega)

/-- Identifier typing environment of the cast collection, modelling
HashMap<String, Type>. -/
def IdsMap : Type := String → Option Ty

mutual
/-- Cast collection traversal (src/src/annotater/union_resolver.rs,
collect_casts).  Function and application nodes whose relevant annotation is
not a function type hit the source's unreachable panic, modelled by none;
Abort and Let nodes contribute nothing. -/
def collect_casts : Exp Annot → IdsMap → Option Ty → Option (List (Nat × Nat))
  | .mk (.identifier id) (Annot.mk t _), ids, ret_t =>
    (match ids id with
     | some it =>
       some (collect_casts_in_type (some it) (some t) ++
         collect_casts_in_type (some t) ret_t)
     | none => some [])
  | .mk (.symbol _) _, _, ret_t => some (collect_casts_in_type (some .symbol) ret_t)
  | .mk (.union lhs rhs) _, ids, ret_t =>
    (match collect_casts lhs ids (some .union), collect_casts rhs ids (some .union) with
     | some a, some b => some (a ++ b ++ collect_casts_in_type (some .union) ret_t)
     | _, _ => none)
  | .mk (.matchE mexp arms) (Annot.mk t _), ids, ret_t =>
    (match collect_casts mexp ids (some .symbol), collect_casts_arms arms ids t with
     | some b, some c => some (collect_casts_in_type (some t) ret_t ++ b ++ c)
     | _, _ => none)
  | .mk (.function arg fexp) (Annot.mk t _), ids, ret_t =>
    (match t with
     | .function argT retT =>
       let ids2 : IdsMap :=
         if argT.is_unresolved_union then fun k => if k = arg then some argT else ids k
         else ids
       (match collect_casts fexp ids2 (some retT) with
        | some b => some (collect_casts_in_type (some (Ty.function argT retT)) ret_t ++ b)
        | none => none)
     | _ => none)
  | .mk (.application func arg) (Annot.mk t _), ids, ret_t =>
    (match func.annot.ty with
     | .function argT retT =>
       (match collect_casts func ids none, collect_casts arg ids none with
        | some d, some e =>
          some (collect_casts_in_type (some arg.annot.ty) (some argT) ++
            collect_casts_in_type (some retT) (some t) ++
            collect_casts_in_type (some t) ret_t ++ d ++ e)
        | _, _ => none)
     | _ => none)
  | .mk _ _, _, _ => some []
/-- Arm traversal of collect_casts: patterns collect against Union, the arm
body collects against the match node's own type, with the catch identifier
bound to Symbol in a cloned environment. -/
def collect_casts_arms : Arms Annot → IdsMap → Ty → Option (List (Nat × Nat))
  | .nil, _, _ => some []
  | .cons (.mk c pat e) tl, ids, t =>
    let pa : Option (List (Nat × Nat)) :=
      match pat with
      | .union pexp => collect_casts pexp ids (some .union)
      | .any => some []
    let ids2 : IdsMap :=
      match c with
      | some id => fun k => if k = id then some Ty.symbol else ids k
      | none => ids
    match pa, collect_casts e ids2 (some t), collect_casts_arms tl ids t with
    | some a, some b, some rest => some (a ++ b ++ rest)
    | _, _, _ => none
end

/-- One pass of the resolution loop (src/src/annotater/union_resolver.rs,
generate_resolved, inner for loop): an unresolved cell whose cast target is
resolved to Symbol becomes Symbol; a Union cell casting to a Symbol cell is
the source's unreachable panic, modelled by none; out-of-range ids model the
source's index panic. -/
def resolve_step : List Ty → List (Nat × Nat) → Bool → Option (List Ty × Bool)
  | types, [], changed => some (types, changed)
  | types, (f, t) :: rest, changed =>
    match types[f]?, types[t]? with
    | some tf, some tt =>
      if tf = .unresolvedUnion 0 ∧ tt = .symbol then
        resolve_step (types.set f .symbol) rest true
      else if tf = .union ∧ tt = .symbol then none
      else resolve_step types rest changed
    | _, _ => none

/-- The resolution loop iterated until a pass reports no change.  The source
loop is unbounded; every continuing pass resolves at least one of the count
cells, so count + 1 passes of fuel always suffice and the fuel case none is
never reached from generate_resolved. -/
def resolve_loop : Nat → List Ty → List (Nat × Nat) → Option (List Ty)
  | 0, _, _ => none
  | fuel + 1, types, casts =>
    match resolve_step types casts false with
    | some (types, true) => resolve_loop fuel types casts
    | some (types, false) => some types
    | none => none

/-- Final defaulting pass of generate_resolved: every still-unresolved cell
of index at least 2 becomes Union. -/
def default_unions : Nat → List Ty → List Ty
  | _, [] => []
  | i, t :: ts =>
    (if 2 ≤ i ∧ t = .unresolvedUnion 0 then Ty.union else t) :: default_unions (i + 1) ts

/-- Resolution of the cast graph (src/src/annotater/union_resolver.rs,
generate_resolved): cells 0 and 1 start as Symbol and Union, all other cells
as UnresolvedUnion(0); the loop propagates Symbol backwards along cast edges
until stable, and the remaining unresolved cells default to Union. -/
def generate_resolved (count : Nat) (casts : List (Nat × Nat)) : Option (List Ty) :=
  let init := (([Ty.symbol, Ty.union]).take count) ++
    List.replicate (count - 2) (Ty.unresolvedUnion 0)
  match resolve_loop (count + 1) init casts with
  | some types => some (default_unions 0 types)
  | none => none

/-- Substitution of resolved ids inside a type
(src/src/annotater/union_resolver.rs, remove_unresolved_in_type); an id out
of range models the source's index panic. -/
def remove_unresolved_in_type : Ty → List Ty → Option Ty
  | .function arg ret, types =>
    (match remove_unresolved_in_type arg types, remove_unresolved_in_type ret types with
     | some arg, some ret => some (.function arg ret)
     | _, _ => none)
  | .unresolvedUnion id, types => types[id]?
  | t, _ => some t

mutual
/-- Substitution traversal (src/src/annotater/union_resolver.rs,
remove_unresolved); Abort and Let nodes hit the source's unreachable panic,
modelled by none. -/
def remove_unresolved : Exp Annot → List Ty → Option (Exp Annot)
  | .mk n (Annot.mk t loc), types =>
    match remove_unresolved_in_type t types with
    | some t =>
      (match n with
       | .identifier id => some (.mk (.identifier id) (Annot.mk t loc))
       | .symbol sym => some (.mk (.symbol sym) (Annot.mk t loc))
       | .union lhs rhs =>
         (match remove_unresolved lhs types, remove_unresolved rhs types with
          | some lhs, some rhs => some (.mk (.union lhs rhs) (Annot.mk t loc))
          | _, _ => none)
       | .matchE e arms =>
         (match remove_unresolved e types, remove_unresolved_arms arms types with
          | some e, some arms => some (.mk (.matchE e arms) (Annot.mk t loc))
          | _, _ => none)
       | .function arg e =>
         (match remove_unresolved e types with
          | some e => some (.mk (.function arg e) (Annot.mk t loc))
          | none => none)
       | .application f x =>
         (match remove_unresolved f types, remove_unresolved x types with
          | some f, some x => some (.mk (.application f x) (Annot.mk t loc))
          | _, _ => none)
       | _ => none)
    | none => none
/-- Arm traversal of remove_unresolved. -/
def remove_unresolved_arms : Arms Annot → List Ty → Option (Arms Annot)
  | .nil, _ => some .nil
  | .cons (.mk c pat e) tl, types =>
    let pc : Option (Pat Annot) :=
      match pat with
      | .union pexp =>
        (match remove_unresolved pexp types with
         | some p => some (.union p)
         | none => none)
      | .any => some .any
    match pc, remove_unresolved e types, remove_unresolved_arms tl types with
    | some pat, some e, some tl => some (.cons (.mk c pat e) tl)
    | _, _, _ => none
end

/-- Entry point of the union resolver (src/src/annotater/union_resolver.rs,
resolve_unions): renumber the unresolved-union ids starting at 2, collect
the casts with an empty environment and no expected type, resolve the id
graph, and substitute the resolved types back. -/
def resolve_unions (ast : Exp Annot) : Option (Exp Annot) :=
  match fix_ids ast 2 with
  | some (ast, count) =>
    (match collect_casts ast (fun _ => none) none with
     | some casts =>
       (match generate_resolved count casts with
        | some types => remove_unresolved ast types
        | none => none)
     | none => none)
  | none => none

/-- Edge relation of the collected cast list. -/
def cast_edge (casts : List (Nat × Nat)) (a b : Nat) : Prop :=
  (a, b) ∈ casts

/-- Forward reachability along collected cast edges. -/
def ReachCast (casts : List (Nat × Nat)) (a b : Nat) : Prop :=
  Relation.ReflTransGen (cast_edge casts) a b

/-- Invariant of the resolution loop: cells 0 and 1 stay Symbol and Union,
every other cell is unresolved or Symbol, and Symbol cells reach id 0 along
the cast edges. -/
def ResolveInv (casts : List (Nat × Nat)) (types : List Ty) : Prop :=
  types[0]? = some Ty.symbol ∧ types[1]? = some Ty.union ∧
  (∀ i v, types[i]? = some v → 2 ≤ i → (v = .unresolvedUnion 0 ∨ v = .symbol)) ∧
  (∀ i, types[i]? = some Ty.symbol → ReachCast casts i 0)

/-- Check whether a type mentions an UnresolvedUnion anywhere. -/
def Ty.hasUU : Ty → Bool
  | .unresolvedUnion _ => true
  | .function arg ret => arg.hasUU || ret.hasUU
  | _ => false

mutual
/-- Check whether any annotation of an expression (including pattern
expressions) mentions an UnresolvedUnion type. -/
def exp_hasUU : Exp Annot → Bool
  | .mk n (Annot.mk t _) => t.hasUU || node_hasUU n
/-- Node traversal of exp_hasUU. -/
def node_hasUU : Node Annot → Bool
  | .union lhs rhs => exp_hasUU lhs || exp_hasUU rhs
  | .matchE e arms => exp_hasUU e || arms_hasUU arms
  | .letE e binds => exp_hasUU e || binds_hasUU binds
  | .function _ e => exp_hasUU e
  | .application f x => exp_hasUU f || exp_hasUU x
  | _ => false
/-- Arm traversal of exp_hasUU. -/
def arms_hasUU : Arms Annot → Bool
  | .nil => false
  | .cons (.mk _ pat e) tl =>
    (match pat with
     | .union pexp => exp_hasUU pexp
     | .any => false) || exp_hasUU e || arms_hasUU tl
/-- Binding traversal of exp_hasUU. -/
def binds_hasUU : Binds Annot → Bool
  | .nil => false
  | .cons _ _ e tl => exp_hasUU e || binds_hasUU tl
end

/-! ## Turing machines and the awmorp exporter
(src/src/data/machine.rs and src/src/exporter/awmorp.rs) -/

/-- Head movement direction (src/src/data/machine.rs, enum Direction). -/
inductive Direction : Type where
  | left : Direction
  | right : Direction
  | stay : Direction
deriving DecidableEq

/-- Machine transition (src/src/data/machine.rs, struct Transition); the
fields frm and tgt model the Rust fields named from and to, each a pair of a
state index and an optional symbol. -/
structure Transition where
  frm : Nat × Option String
  tgt : Nat × Option String
  dir : Direction
deriving DecidableEq

/-- Turing machine (src/src/data/machine.rs, struct Machine); states 0, 1
and 2 are reserved for the initial, accepting and rejecting states. -/
structure Machine where
  state_count : Nat
  transitions : List Transition
deriving DecidableEq

/-- State name conversion (src/src/exporter/awmorp.rs, convert_state). -/
def convert_state (state : Nat) : String :=
  if state = 0 then "0"
  else if state = 1 then "halt-accept"
  else if state = 2 then "halt-reject"
  else toString (state - 2)

/-- The Unicode code points with the White_Space property, which is what the
Rust char::is_whitespace checks. -/
def rust_is_whitespace (c : Char) : Bool :=
  c.toNat ∈ [0x9, 0xA, 0xB, 0xC, 0xD, 0x20, 0x85, 0xA0, 0x1680,
    0x2000, 0x2001, 0x2002, 0x2003, 0x2004, 0x2005, 0x2006, 0x2007,
    0x2008, 0x2009, 0x200A, 0x2028, 0x2029, 0x202F, 0x205F, 0x3000]

/-- Symbol conversion (src/src/exporter/awmorp.rs, convert_symbol): the
empty (blank) symbol prints as an underscore, a missing symbol as a star;
symbols of more than one byte (the Rust len) and one-character symbols that
are reserved or whitespace are rejected.  The empty-data branch after the
byte-size guards is unreachable. -/
def convert_symbol : Option String → Except String Char
  | some s =>
    if s.utf8ByteSize = 0 then .ok '_'
    else if 1 < s.utf8ByteSize then
      .error ("Unsupported symbol '" ++ s ++ "', only one character allowed")
    else
      match s.data with
      | [] => .error "unreachable: nonempty string without characters"
      | c :: _ =>
        if c = '_' ∨ c = ';' ∨ c = '*' then
          .error ("Unsupported symbol '" ++ s ++ "', reserved symbol")
        else if rust_is_whitespace c then
          .error ("Unsupported symbol '" ++ s ++ "', whitespace not allowed")
        else .ok c
  | none => .ok '*'

/-- Direction conversion (src/src/exporter/awmorp.rs, convert_direction). -/
def convert_direction : Direction → String
  | .left => "l"
  | .right => "r"
  | .stay => "*"

/-- Comparison used to sort transitions in the export: by from-state, ties
broken by to-state (src/src/exporter/awmorp.rs line 51). -/
def transition_le (a b : Transition) : Bool :=
  a.frm.1 < b.frm.1 || (a.frm.1 = b.frm.1 && a.tgt.1 ≤ b.tgt.1)

/-- One printed line of the export: from-state, from-symbol, to-symbol,
direction, to-state, separated by spaces and ended by a newline. -/
def transition_line (t : Transition) : Except String String :=
  match convert_symbol t.frm.2 with
  | .error e => .error e
  | .ok fs =>
    match convert_symbol t.tgt.2 with
    | .error e => .error e
    | .ok ts =>
      .ok (convert_state t.frm.1 ++ " " ++ String.singleton fs ++ " " ++
        String.singleton ts ++ " " ++ convert_direction t.dir ++ " " ++
        convert_state t.tgt.1 ++ "\n")

/-- Concatenation of the printed lines, stopping at the first bad symbol
(the source's question-mark operator inside the loop). -/
def export_transitions : List Transition → Except String String
  | [] => .ok ""
  | t :: rest =>
    match transition_line t with
    | .error e => .error e
    | .ok line =>
      match export_transitions rest with
      | .error e => .error e
      | .ok restS => .ok (line ++ restS)

/-- The awmorp exporter (src/src/exporter/awmorp.rs, the function named
export): sorts the transitions by the pair of from-state and to-state and
prints one line per transition. -/
def awmorp_export (machine : Machine) : Except String String :=
  export_transitions (machine.transitions.mergeSort transition_le)

/-! ## The compile pipeline (src/src/main.rs) -/

/-- Stages a compilation run can perform, named after the functions the
compile function in src/src/main.rs could call.  The last three stages
correspond to generator::generate, Machine::simplify and the exporter. -/
inductive CompileStep : Type where
  | tokenize : CompileStep
  | parse : CompileStep
  | pre_simplify : CompileStep
  | dedup_ids_pass : CompileStep
  | type_check : CompileStep
  | const_check : CompileStep
  | ownership_transform : CompileStep
  | ownership_check_pass : CompileStep
  | resolve_unions_pass : CompileStep
  | final_simplify : CompileStep
  | generate_machine : CompileStep
  | simplify_machine : CompileStep
  | export_machine : CompileStep
deriving DecidableEq

/-- The stages actually invoked, in order, by the compile function
(src/src/main.rs lines 75 to 187) on a successful run: main.rs declares only
the modules annotater, data, lexer, parser and simplifier, and compile
returns Ok immediately after the final simplifier transform, without
constructing a Machine and without invoking any exporter. -/
def compile_steps : List CompileStep :=
  [.tokenize, .parse, .pre_simplify, .dedup_ids_pass, .type_check,
   .const_check, .ownership_transform, .ownership_check_pass,
   .resolve_unions_pass, .final_simplify]

/-! ## Concrete example inputs used by witnesses and counterexamples -/

/-- Dummy location for concrete examples. -/
def loc0 : TokenLoc := TokenLoc.mk 0 0 none

/-- Two well-shaped arms over the symbols a and b. -/
def exC2_arms : Arms Unit :=
  .cons (.mk none (.union (.mk (.symbol "a") ())) (.mk (.symbol "x") ()))
    (.cons (.mk none (.union (.mk (.symbol "b") ())) (.mk (.symbol "y") ())) .nil)

/-- Constant match on the symbol a with no arms at all. -/
def exC2_nomatch : Exp Unit := .mk (.matchE (.mk (.symbol "a") ()) .nil) ()

/-- Arm list whose first arm is well shaped and matches the symbol a, while
the second arm carries a catch identifier and an any pattern. -/
def exC9_arms : Arms Unit :=
  .cons (.mk none (.union (.mk (.symbol "a") ())) (.mk (.symbol "x") ()))
    (.cons (.mk (some "c") .any (.mk .abort ())) .nil)

/-- Constant match on the symbol a over exC9_arms. -/
def exC9_exp : Exp Unit := .mk (.matchE (.mk (.symbol "a") ()) exC9_arms) ()

/-- Well-shaped constant match used by the totality witness. -/
def exC9_good : Exp Unit :=
  .mk (.matchE (.mk (.symbol "b") ()) exC2_arms) ()

/-- A plain tape identifier, not a get application. -/
def exC10_other : Exp Annot := .mk (.identifier "t") (Annot.mk .tape loc0)

/-- A match with a Pat::Any arm hidden below a Let node: remove_any does not
traverse Let nodes and returns this expression unchanged even on an empty
alphabet. -/
def exC8_let : Exp Unit :=
  .mk (.letE (.mk (.matchE (.mk (.identifier "t") ())
    (.cons (.mk none .any (.mk .abort ())) .nil)) ()) .nil) ()

/-- A match with a Pat::Any arm in a traversed position. -/
def exC8_any : Exp Unit :=
  .mk (.matchE (.mk (.identifier "t") ())
    (.cons (.mk none .any (.mk .abort ())) .nil)) ()

/-- A get-like function identifier of type Tape to Symbol. -/
def exC4_func : Exp Annot :=
  .mk (.identifier "f") (Annot.mk (.function .tape .symbol) loc0)

/-- An argument that is itself a consuming application of a Tape-to-Tape
function to the tape identifier t. -/
def exC4_arg : Exp Annot :=
  .mk (.application (.mk (.identifier "g") (Annot.mk (.function .tape .tape) loc0))
    (.mk (.identifier "t") (Annot.mk .tape loc0))) (Annot.mk .tape loc0)

/-- Application of the borrowing function to the consuming argument. -/
def exC4 : Exp Annot := .mk (.application exC4_func exC4_arg) (Annot.mk .symbol loc0)

/-- Application of one function binding x to another function binding x:
the two binders live in disjoint scopes. -/
def exC3 : Exp Unit :=
  .mk (.application (.mk (.function "x" (.mk (.identifier "x") ())) ())
    (.mk (.function "x" (.mk (.identifier "x") ())) ())) ()

/-- Union of the two distinct symbols a and b. -/
def exC7_e : Exp Unit :=
  .mk (.union (.mk (.symbol "a") ()) (.mk (.symbol "b") ())) ()

/-- Union node whose two children are the same symbol a. -/
def exC7_dup : Exp Unit :=
  .mk (.union (.mk (.symbol "a") ()) (.mk (.symbol "a") ())) ()

/-- A symbol expression annotated with an unresolved union, as the type
checker leaves it. -/
def exC5 : Exp Annot := .mk (.symbol "a") (Annot.mk (.unresolvedUnion 0) loc0)

/-- The same expression after id renumbering. -/
def exC5_fixed : Exp Annot := .mk (.symbol "a") (Annot.mk (.unresolvedUnion 2) loc0)

/-- The same expression after union resolution: the id defaults to Union. -/
def exC5_out : Exp Annot := .mk (.symbol "a") (Annot.mk .union loc0)

/-- One-transition machine with a printable symbol. -/
def exC6_m : Machine :=
  Machine.mk 3 [Transition.mk (0, some "a") (1, none) .stay]

/-- One-transition machine whose from-symbol is the reserved underscore. -/
def exC6_bad : Machine :=
  Machine.mk 3 [Transition.mk (0, some "_") (1, none) .stay]

/-! ## Theorems -/

/-- Claim C1 (code bug witness): the claim states that compile translates the
canonical AST into a Machine, runs the machine size-reduction pass and emits
the machine in the selected export format before returning success.  In the
snapshot the compile function of src/src/main.rs does none of this: its
pipeline ends with the final simplifier transform, and no machine-generation,
machine-simplification or export stage occurs in it. -/
theorem compile_steps_no_generate_no_export :
    compile_steps.getLast? = some CompileStep.final_simplify ∧
    CompileStep.generate_machine ∉ compile_steps ∧
    CompileStep.export_machine ∉ compile_steps := by
  decide

/-- On well-shaped arm lists, the panic-modelling scan of match_const agrees
with the specification-side first-match scan. -/
theorem find_matching_arm_eq_first (sym : String) :
    ∀ (arms : Arms α), arms_all_good arms = true →
      find_matching_arm sym arms = some (first_matching_arm sym arms)
  | .nil, _ => rfl
  | .cons (.mk c pat e) tl, h => by
    simp only [arms_all_good, Bool.and_eq_true] at h
    obtain ⟨hg, htl⟩ := h
    have ih := find_matching_arm_eq_first sym tl htl
    cases pat with
    | any => simp [arm_good] at hg
    | union u =>
      cases u with
      | mk un ua =>
        cases un with
        | symbol p =>
          cases c with
          | some id => simp [arm_good] at hg
          | none =>
            by_cases hp : p = sym
            · subst hp
              simp [find_matching_arm, first_matching_arm]
            · simp [find_matching_arm, first_matching_arm, hp, ih]
        | identifier i => simp [arm_good] at hg
        | abort => simp [arm_good] at hg
        | union a b => simp [arm_good] at hg
        | matchE a b => simp [arm_good] at hg
        | letE a b => simp [arm_good] at hg
        | function a b => simp [arm_good] at hg
        | application a b => simp [arm_good] at hg

/-- Claim C2 (amended): for a Match whose scrutinee is a symbol literal and
whose arms all have no catch_id and singleton symbol patterns, match_const
returns the body of the first arm whose pattern symbol equals the scrutinee;
if no arm matches, the result is a Match with the same scrutinee and an empty
arm list (not Abort). -/
theorem match_const_selects_first_matching_arm (sym : String) (arms : Arms α)
    (sann ann : α) (h : arms_all_good arms = true) :
    match_const (.mk (.matchE (.mk (.symbol sym) sann) arms) ann) =
      some (match first_matching_arm sym arms with
            | some arm => arm.exp
            | none => .mk (.matchE (.mk (.symbol sym) sann) .nil) ann) := by
  have hf := find_matching_arm_eq_first sym arms h
  cases hfm : first_matching_arm sym arms with
  | none =>
    rw [hfm] at hf
    simp [match_const, hf]
  | some arm =>
    rw [hfm] at hf
    cases arm with
    | mk c p e => simp [match_const, hf, Arm.exp]

/-- Witness for claim C2 at a concrete two-arm constant match. -/
theorem match_const_selects_first_matching_arm_witness :
    arms_all_good exC2_arms = true ∧
    match_const (Exp.mk (Node.matchE (Exp.mk (Node.symbol "b") ()) exC2_arms) ()) =
      some (Exp.mk (Node.symbol "y") ()) :=
  ⟨by decide,
    (match_const_selects_first_matching_arm "b" exC2_arms () () (by decide)).trans
      (by decide)⟩

/-- Counterexample for claim C2 as stated: a constant match with no matching
arm folds to an empty match on the same scrutinee, not to Abort. -/
theorem match_const_no_match_is_not_abort :
    match_const exC2_nomatch = some exC2_nomatch ∧
    exC2_nomatch.node ≠ Node.abort := by
  decide

/-- The panic scan and the bad-arm scan agree: find_matching_arm panics
exactly when an ill-shaped arm is reached before the first match. -/
theorem find_matching_arm_none_iff (sym : String) :
    ∀ (arms : Arms α),
      (find_matching_arm sym arms = none ↔ scan_hits_bad_arm sym arms = true)
  | .nil => by simp [find_matching_arm, scan_hits_bad_arm]
  | .cons (.mk c pat e) tl => by
    cases c with
    | some id => simp [find_matching_arm, scan_hits_bad_arm]
    | none =>
      cases pat with
      | any => simp [find_matching_arm, scan_hits_bad_arm]
      | union u =>
        cases u with
        | mk un ua =>
          cases un with
          | symbol p =>
            by_cases hp : p = sym
            · subst hp
              simp [find_matching_arm, scan_hits_bad_arm]
            · simp [find_matching_arm, scan_hits_bad_arm, hp,
                find_matching_arm_none_iff sym tl]
          | identifier i => simp [find_matching_arm, scan_hits_bad_arm]
          | abort => simp [find_matching_arm, scan_hits_bad_arm]
          | union a b => simp [find_matching_arm, scan_hits_bad_arm]
          | matchE a b => simp [find_matching_arm, scan_hits_bad_arm]
          | letE a b => simp [find_matching_arm, scan_hits_bad_arm]
          | function a b => simp [find_matching_arm, scan_hits_bad_arm]
          | application a b => simp [find_matching_arm, scan_hits_bad_arm]

/-- Well-shaped arm lists never make the scan hit a bad arm. -/
theorem scan_no_bad_arm_of_all_good (sym : String) :
    ∀ (arms : Arms α), arms_all_good arms = true →
      scan_hits_bad_arm sym arms = false
  | .nil, _ => rfl
  | .cons (.mk c pat e) tl, h => by
    simp only [arms_all_good, Bool.and_eq_true] at h
    obtain ⟨hg, htl⟩ := h
    cases pat with
    | any => simp [arm_good] at hg
    | union u =>
      cases u with
      | mk un ua =>
        cases un with
        | symbol p =>
          cases c with
          | some id => simp [arm_good] at hg
          | none =>
            by_cases hp : p = sym
            · subst hp
              simp [scan_hits_bad_arm]
            · simp [scan_hits_bad_arm, hp, scan_no_bad_arm_of_all_good sym tl htl]
        | identifier i => simp [arm_good] at hg
        | abort => simp [arm_good] at hg
        | union a b => simp [arm_good] at hg
        | matchE a b => simp [arm_good] at hg
        | letE a b => simp [arm_good] at hg
        | function a b => simp [arm_good] at hg
        | application a b => simp [arm_good] at hg

/-- Claim C9 (amended): on a Match whose scrutinee is a symbol literal,
match_const panics exactly when its left-to-right arm scan reaches an arm
with a non-None catch_id or a non-singleton pattern before finding the first
matching arm (an ill-shaped arm after a matching arm is never inspected and
does not panic); under the pipeline precondition that every arm of such a
match is well shaped, match_const is total. -/
theorem match_const_panic_characterization {α : Type} :
    (∀ (sym : String) (arms : Arms α) (sann ann : α),
      (match_const (.mk (.matchE (.mk (.symbol sym) sann) arms) ann) = none ↔
        scan_hits_bad_arm sym arms = true)) ∧
    (∀ e : Exp α, match_const_precondition e = true →
      (match_const e).isSome = true) := by
  constructor
  · intro sym arms sann ann
    rw [← find_matching_arm_none_iff sym arms]
    cases hf : find_matching_arm sym arms with
    | none => simp [match_const, hf]
    | some o =>
      cases o with
      | none => simp [match_const, hf]
      | some arm =>
        cases arm with
        | mk c p e => simp [match_const, hf]
  · intro e hpre
    cases e with
    | mk n a =>
      cases n with
      | identifier i => simp [match_const]
      | symbol s => simp [match_const]
      | abort => simp [match_const]
      | union l r => simp [match_const]
      | letE b bs => simp [match_const]
      | function i b => simp [match_const]
      | application f x => simp [match_const]
      | matchE scrut arms =>
        cases scrut with
        | mk sn sa =>
          cases sn with
          | symbol sym =>
            simp only [match_const_precondition] at hpre
            have hscan := scan_no_bad_arm_of_all_good sym arms hpre
            cases hf : find_matching_arm sym arms with
            | none =>
              rw [find_matching_arm_none_iff sym arms] at hf
              rw [hf] at hscan
              exact absurd hscan (by simp)
            | some o =>
              cases o with
              | none => simp [match_const, hf]
              | some arm =>
                cases arm with
                | mk c p e => simp [match_const, hf]
          | identifier i => simp [match_const]
          | abort => simp [match_const]
          | union l r => simp [match_const]
          | letE b bs => simp [match_const]
          | function i b => simp [match_const]
          | application f x => simp [match_const]
          | matchE s2 a2 => simp [match_const]

/-- Witness for claim C9 at a concrete well-shaped constant match. -/
theorem match_const_panic_characterization_witness :
    match_const_precondition exC9_good = true ∧
    (match_const exC9_good).isSome = true :=
  ⟨by decide, (match_const_panic_characterization (α := Unit)).2 exC9_good (by decide)⟩

/-- Counterexample for claim C9 as stated: a constant match containing an arm
with a catch identifier and a non-singleton pattern does not panic when a
matching well-shaped arm precedes it. -/
theorem match_const_bad_arm_after_match_no_panic :
    arms_all_good exC9_arms = false ∧
    match_const exC9_exp = some (Exp.mk (Node.symbol "x") ()) := by
  decide

/-- The arm list built by remove_gets is the list comprehension over the
alphabet described by the claim. -/
theorem get_arms_eq_map (loc : TokenLoc) :
    ∀ alphabet : List String,
      get_arms alphabet loc = arms_of_list (alphabet.map (fun sym =>
        Arm.mk none (.union (.mk (.symbol sym) (Annot.mk .symbol loc)))
          (.mk (.symbol sym) (Annot.mk .symbol loc))))
  | [] => rfl
  | s :: tl => by
    simp [get_arms, arms_of_list, get_arms_eq_map loc tl]

/-- Claim C10: remove_gets rewrites exactly those application nodes whose
function node is the identifier named get (whatever its annotated type and
whatever the argument) into a Match on the application's argument with one
arm per alphabet letter, each arm having no catch identifier and the
letter's Symbol literal as both pattern and body; every other expression is
returned unchanged. -/
theorem remove_gets_spec :
    (∀ (fann ann : Annot) (arg : Exp Annot) (alphabet : List String),
      remove_gets (.mk (.application (.mk (.identifier "get") fann) arg) ann) alphabet =
        .mk (.matchE arg (arms_of_list (alphabet.map (fun sym =>
          Arm.mk none (.union (.mk (.symbol sym) (Annot.mk .symbol ann.loc)))
            (.mk (.symbol sym) (Annot.mk .symbol ann.loc)))))) ann) ∧
    (∀ (e : Exp Annot) (alphabet : List String),
      is_get_application e = false → remove_gets e alphabet = e) := by
  constructor
  · intro fann ann arg alphabet
    rw [remove_gets, if_pos rfl, get_arms_eq_map]
  · intro e alphabet hne
    cases e with
    | mk n a =>
      cases n with
      | identifier i => simp [remove_gets]
      | symbol s => simp [remove_gets]
      | abort => simp [remove_gets]
      | union l r => simp [remove_gets]
      | letE b bs => simp [remove_gets]
      | function i b => simp [remove_gets]
      | matchE s as => simp [remove_gets]
      | application f x =>
        cases f with
        | mk fn fa =>
          cases fn with
          | identifier id =>
            simp only [is_get_application, decide_eq_false_iff_not] at hne
            simp [remove_gets, hne]
          | symbol s => simp [remove_gets]
          | abort => simp [remove_gets]
          | union l r => simp [remove_gets]
          | letE b bs => simp [remove_gets]
          | function i b => simp [remove_gets]
          | matchE s as => simp [remove_gets]
          | application g y => simp [remove_gets]

/-- Witness for claim C10: a get application over a two-letter alphabet is
rewritten to the corresponding match, and a plain identifier is unchanged. -/
theorem remove_gets_spec_witness :
    is_get_application exC10_other = false ∧
    remove_gets exC10_other ["a"] = exC10_other ∧
    remove_gets
      (.mk (.application (.mk (.identifier "get") (Annot.mk (.function .tape .symbol) loc0))
        (.mk (.identifier "t") (Annot.mk .tape loc0))) (Annot.mk .symbol loc0)) ["a", "b"] =
      .mk (.matchE (.mk (.identifier "t") (Annot.mk .tape loc0))
        (arms_of_list (["a", "b"].map (fun sym =>
          Arm.mk none (.union (.mk (.symbol sym) (Annot.mk .symbol loc0)))
            (.mk (.symbol sym) (Annot.mk .symbol loc0)))))) (Annot.mk .symbol loc0) :=
  ⟨by decide, remove_gets_spec.2 exC10_other ["a"] (by decide),
    remove_gets_spec.1 (Annot.mk (.function .tape .symbol) loc0) (Annot.mk .symbol loc0)
      (.mk (.identifier "t") (Annot.mk .tape loc0)) ["a", "b"]⟩

/-- On a non-empty symbol list, generate_union succeeds. -/
theorem generate_union_total {α : Type} :
    ∀ (l : List String) (a : α), l ≠ [] → (generate_union l a).isSome = true
  | [], _, hne => absurd rfl hne
  | s :: tl, a, _ => by simp [generate_union]

mutual
/-- On a non-empty alphabet, remove_any succeeds on every expression. -/
theorem remove_any_total {α : Type} (alphabet : List String) (hne : alphabet ≠ []) :
    ∀ e : Exp α, (remove_any e alphabet).isSome = true
  | .mk (.union lhs rhs) a => by
    have hl := remove_any_total alphabet hne lhs
    have hr := remove_any_total alphabet hne rhs
    cases hle : remove_any lhs alphabet with
    | none => rw [hle] at hl; simp at hl
    | some l2 =>
      cases hre : remove_any rhs alphabet with
      | none => rw [hre] at hr; simp at hr
      | some r2 => simp [remove_any, hle, hre]
  | .mk (.matchE e arms) a => by
    have he := remove_any_total alphabet hne e
    have ha := remove_any_arms_total alphabet hne arms
    cases hee : remove_any e alphabet with
    | none => rw [hee] at he; simp at he
    | some e2 =>
      cases hae : remove_any_arms arms alphabet with
      | none => rw [hae] at ha; simp at ha
      | some arms2 => simp [remove_any, hee, hae]
  | .mk (.function arg e) a => by
    have he := remove_any_total alphabet hne e
    cases hee : remove_any e alphabet with
    | none => rw [hee] at he; simp at he
    | some e2 => simp [remove_any, hee]
  | .mk (.application f x) a => by
    have hf := remove_any_total alphabet hne f
    have hx := remove_any_total alphabet hne x
    cases hfe : remove_any f alphabet with
    | none => rw [hfe] at hf; simp at hf
    | some f2 =>
      cases hxe : remove_any x alphabet with
      | none => rw [hxe] at hx; simp at hx
      | some x2 => simp [remove_any, hfe, hxe]
  | .mk (.identifier i) a => by simp [remove_any]
  | .mk (.symbol s) a => by simp [remove_any]
  | .mk .abort a => by simp [remove_any]
  | .mk (.letE b bs) a => by simp [remove_any]
/-- On a non-empty alphabet, the arm traversal of remove_any succeeds. -/
theorem remove_any_arms_total {α : Type} (alphabet : List String) (hne : alphabet ≠ []) :
    ∀ arms : Arms α, (remove_any_arms arms alphabet).isSome = true
  | .nil => by simp [remove_any_arms]
  | .cons (.mk c pat e) tl => by
    have he := remove_any_total alphabet hne e
    have ht := remove_any_arms_total alphabet hne tl
    cases hee : remove_any e alphabet with
    | none => rw [hee] at he; simp at he
    | some e2 =>
      cases hte : remove_any_arms tl alphabet with
      | none => rw [hte] at ht; simp at ht
      | some tl2 =>
        cases pat with
        | any =>
          have hg := generate_union_total alphabet (e.annot) hne
          cases hge : generate_union alphabet e.annot with
          | none => rw [hge] at hg; simp at hg
          | some u => simp [remove_any_arms, hge, hee, hte]
        | union pexp =>
          have hp := remove_any_total alphabet hne pexp
          cases hpe : remove_any pexp alphabet with
          | none => rw [hpe] at hp; simp at hp
          | some p2 => simp [remove_any_arms, hpe, hee, hte]
end

mutual
/-- On the empty alphabet, remove_any panics on every expression holding a
Pat::Any arm in a traversed position. -/
theorem remove_any_reachable_none {α : Type} :
    ∀ e : Exp α, reachable_any_arm e = true → remove_any e [] = none
  | .mk (.union lhs rhs) a, h => by
    simp only [reachable_any_arm, Bool.or_eq_true] at h
    cases h with
    | inl h => simp [remove_any, remove_any_reachable_none lhs h]
    | inr h =>
      cases hle : remove_any lhs ([] : List String) with
      | none => simp [remove_any, hle]
      | some l2 => simp [remove_any, hle, remove_any_reachable_none rhs h]
  | .mk (.matchE e arms) a, h => by
    simp only [reachable_any_arm, Bool.or_eq_true] at h
    cases h with
    | inl h => simp [remove_any, remove_any_reachable_none e h]
    | inr h =>
      cases hee : remove_any e ([] : List String) with
      | none => simp [remove_any, hee]
      | some e2 => simp [remove_any, hee, remove_any_arms_reachable_none arms h]
  | .mk (.function arg e) a, h => by
    simp only [reachable_any_arm] at h
    simp [remove_any, remove_any_reachable_none e h]
  | .mk (.application f x) a, h => by
    simp only [reachable_any_arm, Bool.or_eq_true] at h
    cases h with
    | inl h => simp [remove_any, remove_any_reachable_none f h]
    | inr h =>
      cases hfe : remove_any f ([] : List String) with
      | none => simp [remove_any, hfe]
      | some f2 => simp [remove_any, hfe, remove_any_reachable_none x h]
  | .mk (.identifier i) a, h => by simp [reachable_any_arm] at h
  | .mk (.symbol s) a, h => by simp [reachable_any_arm] at h
  | .mk .abort a, h => by simp [reachable_any_arm] at h
  | .mk (.letE b bs) a, h => by simp [reachable_any_arm] at h
/-- Arm-list version of remove_any_reachable_none. -/
theorem remove_any_arms_reachable_none {α : Type} :
    ∀ arms : Arms α, arms_reachable_any arms = true → remove_any_arms arms [] = none
  | .cons (.mk c pat e) tl, h => by
    cases pat with
    | any => simp [remove_any_arms, generate_union]
    | union pexp =>
      simp only [arms_reachable_any, Bool.or_eq_true] at h
      cases h with
      | inl h =>
        cases h with
        | inl h =>
          simp [remove_any_arms, remove_any_reachable_none pexp h]
        | inr h =>
          cases hpe : remove_any pexp ([] : List String) with
          | none => simp [remove_any_arms, hpe]
          | some p2 => simp [remove_any_arms, hpe, remove_any_reachable_none e h]
      | inr h =>
        cases hpe : remove_any pexp ([] : List String) with
        | none => simp [remove_any_arms, hpe]
        | some p2 =>
          cases hee : remove_any e ([] : List String) with
          | none => simp [remove_any_arms, hpe, hee]
          | some e2 => simp [remove_any_arms, hpe, hee, remove_any_arms_reachable_none tl h]
end

/-- Claim C8 (amended): union_from_set panics on an empty symbol set and
succeeds on every non-empty one; generate_union behaves identically; and with
an empty alphabet, remove_any panics on every input holding a Pat::Any arm in
a position it traverses (remove_any does not descend into Let nodes, so an
Any arm below a Let escapes), while with a non-empty alphabet it is total. -/
theorem union_from_set_empty_panic_characterization {α : Type} :
    (∀ a : α, union_from_set [] a = none) ∧
    (∀ (l : List String) (a : α), l ≠ [] → (union_from_set l a).isSome = true) ∧
    (∀ a : α, generate_union [] a = none) ∧
    (∀ (l : List String) (a : α), l ≠ [] → (generate_union l a).isSome = true) ∧
    (∀ e : Exp α, reachable_any_arm e = true → remove_any e [] = none) ∧
    (∀ (e : Exp α) (l : List String), l ≠ [] → (remove_any e l).isSome = true) := by
  refine ⟨fun a => rfl, ?_, fun a => rfl, ?_, ?_, ?_⟩
  · intro l a hne
    cases l with
    | nil => exact absurd rfl hne
    | cons s tl => simp [union_from_set]
  · exact fun l a hne => generate_union_total l a hne
  · exact fun e h => remove_any_reachable_none e h
  · exact fun e l hne => remove_any_total l hne e

/-- Witness for claim C8 at concrete inputs: a singleton set succeeds, an
Any arm in traversed position panics on the empty alphabet, and the same
expression succeeds on a one-letter alphabet. -/
theorem union_from_set_empty_panic_witness :
    (union_from_set ["a"] ()).isSome = true ∧
    reachable_any_arm exC8_any = true ∧
    remove_any exC8_any [] = none ∧
    (remove_any exC8_any ["a"]).isSome = true :=
  ⟨(union_from_set_empty_panic_characterization (α := Unit)).2.1 ["a"] () (by decide),
    by decide,
    (union_from_set_empty_panic_characterization (α := Unit)).2.2.2.2.1 exC8_any (by decide),
    (union_from_set_empty_panic_characterization (α := Unit)).2.2.2.2.2 exC8_any ["a"]
      (by decide)⟩

/-- Counterexample for claim C8 as stated: an input containing a Pat::Any
arm below a Let node does not make remove_any panic on the empty alphabet,
because the pass never descends into Let nodes. -/
theorem remove_any_let_nested_any_no_panic :
    has_any_arm exC8_let = true ∧ remove_any exC8_let [] = some exC8_let := by
  decide

/-- Claim C4 (amended): at an application node, the ownership checker
dispatches on the function's annotated type.  For Tape to Symbol the
argument is traversed with the borrow flag, so an argument that is itself a
previously unconsumed tape identifier is not added to the consumed set
(tape identifiers nested below further consuming applications inside the
argument may still be consumed); for Tape to Tape such an argument is added
to the consumed set; and for Tape to any other return type the checker
returns an error without traversing either subexpression. -/
theorem ownership_application_dispatch :
    (∀ (f : Exp Annot) (t : String) (aAnn ann : Annot) (c c1 : List String)
        (is_ref : Bool), aAnn.ty = .tape →
      f.annot.ty = .function .tape .symbol →
      ownership_traverse f c false = .ok c1 → t ∉ c1 →
      ownership_traverse (.mk (.application f (.mk (.identifier t) aAnn)) ann) c is_ref
        = .ok c1) ∧
    (∀ (f : Exp Annot) (t : String) (aAnn ann : Annot) (c c1 : List String)
        (is_ref : Bool), aAnn.ty = .tape →
      f.annot.ty = .function .tape .tape →
      ownership_traverse f c false = .ok c1 → t ∉ c1 →
      ownership_traverse (.mk (.application f (.mk (.identifier t) aAnn)) ann) c is_ref
        = .ok (set_insert c1 t)) ∧
    (∀ (f arg : Exp Annot) (ann : Annot) (c : List String) (is_ref : Bool) (X : Ty),
      f.annot.ty = .function .tape X → X ≠ .tape → X ≠ .symbol →
      ownership_traverse (.mk (.application f arg) ann) c is_ref = .userError) := by
  refine ⟨?_, ?_, ?_⟩
  · intro f t aAnn ann c c1 is_ref hat hft hfok htn
    simp only [ownership_traverse, hft, hfok]
    simp [ownership_traverse, hat, htn]
  · intro f t aAnn ann c c1 is_ref hat hft hfok htn
    simp only [ownership_traverse, hft, hfok]
    simp [ownership_traverse, hat, htn]
  · intro f arg ann c is_ref X hft hxt hxs
    cases X with
    | symbol => exact absurd rfl hxs
    | tape => exact absurd rfl hxt
    | union => simp [ownership_traverse, hft]
    | halt => simp [ownership_traverse, hft]
    | function a r => simp [ownership_traverse, hft]
    | unresolvedUnion i => simp [ownership_traverse, hft]

/-- Witness for claim C4 at concrete applications: a borrow keeps the
consumed set unchanged, a consuming application adds the tape identifier,
and a Tape-to-Union function is rejected. -/
theorem ownership_application_dispatch_witness :
    ownership_traverse
      (.mk (.application exC4_func (.mk (.identifier "t") (Annot.mk .tape loc0)))
        (Annot.mk .symbol loc0)) [] false = .ok [] ∧
    ownership_traverse
      (.mk (.application (.mk (.identifier "g") (Annot.mk (.function .tape .tape) loc0))
        (.mk (.identifier "t") (Annot.mk .tape loc0))) (Annot.mk .tape loc0)) [] false
      = .ok (set_insert [] "t") ∧
    ownership_traverse
      (.mk (.application (.mk (.identifier "h") (Annot.mk (.function .tape .union) loc0))
        (.mk (.identifier "t") (Annot.mk .tape loc0))) (Annot.mk .union loc0)) [] false
      = .userError :=
  ⟨ownership_application_dispatch.1 exC4_func "t" (Annot.mk .tape loc0)
      (Annot.mk .symbol loc0) [] [] false rfl rfl (by decide) (by decide),
    ownership_application_dispatch.2.1
      (.mk (.identifier "g") (Annot.mk (.function .tape .tape) loc0)) "t"
      (Annot.mk .tape loc0) (Annot.mk .tape loc0) [] [] false rfl rfl (by decide) (by decide),
    ownership_application_dispatch.2.2
      (.mk (.identifier "h") (Annot.mk (.function .tape .union) loc0))
      (.mk (.identifier "t") (Annot.mk .tape loc0)) (Annot.mk .union loc0) [] false
      .union rfl (by decide) (by decide)⟩

/-- Counterexample for claim C4 as stated: borrowing is not hereditary.  The
function f has type Tape to Symbol, yet the tape identifier t inside its
argument (below a consuming Tape-to-Tape application) is added to the
consumed set. -/
theorem ownership_borrowed_argument_consumes_inner_tape :
    exC4_func.annot.ty = Ty.function .tape .symbol ∧
    ownership_traverse exC4 [] false = .ok ["t"] := by
  decide

/-- Unfolding of the underscore string builder over an append. -/
theorem und_succ_append (n : Nat) (s : String) :
    und (n + 1) ++ s = "_" ++ (und n ++ s) := by
  rw [und, String.append_assoc]

mutual
/-- Refinement of the dedup traversal: when the renaming map stores, for each
name, its current rename (always some underscores followed by the name), the
source traversal agrees with the specification-side traversal that stores
only the underscore count. -/
theorem id_dedup_spec_exp {α : Type} :
    ∀ (e : Exp α) (m : RenMap) (m2 : String → Option Nat),
      (∀ b, m b = (m2 b).map (fun n => und n ++ b)) →
      id_dedup_traverse e m = spec_dedup_traverse e m2
  | .mk (.identifier id) a, m, m2, hrel => by
    have h := hrel id
    cases hm : m2 id with
    | none => rw [hm] at h; simp [id_dedup_traverse, spec_dedup_traverse, get_id, h, hm]
    | some n => rw [hm] at h; simp [id_dedup_traverse, spec_dedup_traverse, get_id, h, hm]
  | .mk (.symbol s) a, m, m2, hrel => rfl
  | .mk .abort a, m, m2, hrel => rfl
  | .mk (.letE b bs) a, m, m2, hrel => rfl
  | .mk (.union lhs rhs) a, m, m2, hrel => by
    simp [id_dedup_traverse, spec_dedup_traverse,
      id_dedup_spec_exp lhs m m2 hrel, id_dedup_spec_exp rhs m m2 hrel]
  | .mk (.application f x) a, m, m2, hrel => by
    simp [id_dedup_traverse, spec_dedup_traverse,
      id_dedup_spec_exp f m m2 hrel, id_dedup_spec_exp x m m2 hrel]
  | .mk (.matchE e arms) a, m, m2, hrel => by
    simp [id_dedup_traverse, spec_dedup_traverse,
      id_dedup_spec_exp e m m2 hrel, id_dedup_spec_arms arms m m2 hrel]
  | .mk (.function arg e) a, m, m2, hrel => by
    have h := hrel arg
    cases hm : m2 arg with
    | none =>
      rw [hm] at h
      simp only [Option.map_none'] at h
      have hrec := id_dedup_spec_exp e
        (fun k => if k = arg then some arg else m k)
        (fun k => if k = arg then some 0 else m2 k)
        (by
          intro b
          by_cases hb : b = arg
          · subst hb; simp [und]
          · simp [hb, hrel b])
      simp [id_dedup_traverse, spec_dedup_traverse, push_id, h, hm, und, hrec]
    | some n =>
      rw [hm] at h
      simp only [Option.map_some'] at h
      have hrec := id_dedup_spec_exp e
        (fun k => if k = arg then some ("_" ++ (und n ++ arg)) else m k)
        (fun k => if k = arg then some (n + 1) else m2 k)
        (by
          intro b
          by_cases hb : b = arg
          · subst hb; simp [und_succ_append]
          · simp [hb, hrel b])
      simp [id_dedup_traverse, spec_dedup_traverse, push_id, h, hm, und_succ_append, hrec]
termination_by e _ _ _ => sizeOf e
decreasing_by
  all_goals simp_wf
  all_goals omega
/-- Arm-list version of the dedup refinement. -/
theorem id_dedup_spec_arms {α : Type} :
    ∀ (arms : Arms α) (m : RenMap) (m2 : String → Option Nat),
      (∀ b, m b = (m2 b).map (fun n => und n ++ b)) →
      id_dedup_arms arms m = spec_dedup_arms arms m2
  | .nil, m, m2, hrel => rfl
  | .cons (.mk none (.union pexp) e) tl, m, m2, hrel => by
    simp [id_dedup_arms, spec_dedup_arms, id_dedup_spec_exp pexp m m2 hrel,
      id_dedup_spec_exp e m m2 hrel, id_dedup_spec_arms tl m m2 hrel]
  | .cons (.mk none .any e) tl, m, m2, hrel => by
    simp [id_dedup_arms, spec_dedup_arms, id_dedup_spec_exp e m m2 hrel,
      id_dedup_spec_arms tl m m2 hrel]
  | .cons (.mk (some id) (.union pexp) e) tl, m, m2, hrel => by
    have hp := id_dedup_spec_exp pexp m m2 hrel
    have htl := id_dedup_spec_arms tl m m2 hrel
    have h := hrel id
    cases hm : m2 id with
    | none =>
      rw [hm] at h
      simp only [Option.map_none'] at h
      have hrec := id_dedup_spec_exp e
        (fun k => if k = id then some id else m k)
        (fun k => if k = id then some 0 else m2 k)
        (by
          intro b
          by_cases hb : b = id
          · subst hb; simp [und]
          · simp [hb, hrel b])
      simp [id_dedup_arms, spec_dedup_arms, push_id, h, hm, und, hrec, hp, htl]
    | some n =>
      rw [hm] at h
      simp only [Option.map_some'] at h
      have hrec := id_dedup_spec_exp e
        (fun k => if k = id then some ("_" ++ (und n ++ id)) else m k)
        (fun k => if k = id then some (n + 1) else m2 k)
        (by
          intro b
          by_cases hb : b = id
          · subst hb; simp [und_succ_append]
          · simp [hb, hrel b])
      simp [id_dedup_arms, spec_dedup_arms, push_id, h, hm, und_succ_append, hrec, hp, htl]
  | .cons (.mk (some id) .any e) tl, m, m2, hrel => by
    have htl := id_dedup_spec_arms tl m m2 hrel
    have h := hrel id
    cases hm : m2 id with
    | none =>
      rw [hm] at h
      simp only [Option.map_none'] at h
      have hrec := id_dedup_spec_exp e
        (fun k => if k = id then some id else m k)
        (fun k => if k = id then some 0 else m2 k)
        (by
          intro b
          by_cases hb : b = id
          · subst hb; simp [und]
          · simp [hb, hrel b])
      simp [id_dedup_arms, spec_dedup_arms, push_id, h, hm, und, hrec, htl]
    | some n =>
      rw [hm] at h
      simp only [Option.map_some'] at h
      have hrec := id_dedup_spec_exp e
        (fun k => if k = id then some ("_" ++ (und n ++ id)) else m k)
        (fun k => if k = id then some (n + 1) else m2 k)
        (by
          intro b
          by_cases hb : b = id
          · subst hb; simp [und_succ_append]
          · simp [hb, hrel b])
      simp [id_dedup_arms, spec_dedup_arms, push_id, h, hm, und_succ_append, hrec, htl]
termination_by arms _ _ _ => sizeOf arms
decreasing_by
  all_goals simp_wf
  all_goals omega
end

/-- Claim C3 (amended): dedup_ids renames every binding occurrence (function
parameter or arm catch_id) to its source name prefixed by one underscore per
enclosing binder of the same source name, and every identifier use to its
innermost enclosing binder's new name, leaving Let nodes untouched: this is
the equality with the specification-side traversal.  In particular two
nested binders of the same source name receive distinct names, but binders
in disjoint scopes may still share a name, so global uniqueness does not
hold. -/
theorem dedup_ids_eq_spec {α : Type} (e : Exp α) : dedup_ids e = spec_dedup_ids e :=
  id_dedup_spec_exp e (fun _ => none) (fun _ => none) (fun _ => rfl)

/-- Counterexample for claim C3 as stated: two sibling functions both binding
x are left unchanged by dedup_ids, so the output binds the same name at two
distinct binding occurrences. -/
theorem dedup_ids_not_globally_unique :
    binder_names (dedup_ids exC3) = ["x", "x"] ∧
    ¬ (binder_names (dedup_ids exC3)).Nodup := by
  refine ⟨by decide, ?_⟩
  intro h
  rw [(by decide : binder_names (dedup_ids exC3) = ["x", "x"])] at h
  simp at h

/-- Membership characterization of union_to_set: the output set holds the
accumulator's elements plus the expression's symbols. -/
theorem union_to_set_mem {α : Type} :
    ∀ (e : Exp α) (acc out : List String), union_to_set e acc = some out →
      ∀ x, (x ∈ out ↔ x ∈ acc ∨ x ∈ usyms e)
  | .mk (.symbol s) a, acc, out, h => by
    simp only [union_to_set, Option.some.injEq] at h
    subst h
    intro x
    by_cases hs : s ∈ acc
    · simp only [set_insert, if_pos hs, usyms, List.mem_singleton]
      constructor
      · exact fun hx => Or.inl hx
      · rintro (hx | rfl)
        · exact hx
        · exact hs
    · simp [set_insert, if_neg hs, usyms]
  | .mk (.union lhs rhs) a, acc, out, h => by
    simp only [union_to_set] at h
    cases hl : union_to_set lhs acc with
    | none => rw [hl] at h; exact absurd h (by simp)
    | some mid =>
      rw [hl] at h
      have h1 := union_to_set_mem lhs acc mid hl
      have h2 := union_to_set_mem rhs mid out h
      intro x
      rw [h2 x, h1 x]
      simp only [usyms, List.mem_append]
      tauto
  | .mk (.identifier i) a, acc, out, h => by simp [union_to_set] at h
  | .mk .abort a, acc, out, h => by simp [union_to_set] at h
  | .mk (.matchE e2 arms) a, acc, out, h => by simp [union_to_set] at h
  | .mk (.letE b bs) a, acc, out, h => by simp [union_to_set] at h
  | .mk (.function i b) a, acc, out, h => by simp [union_to_set] at h
  | .mk (.application f x) a, acc, out, h => by simp [union_to_set] at h

/-- On Symbol/Union expressions, union_to_set always succeeds. -/
theorem union_to_set_total {α : Type} :
    ∀ (e : Exp α) (acc : List String), is_sym_union e = true →
      ∃ out, union_to_set e acc = some out
  | .mk (.symbol s) a, acc, _ => ⟨set_insert acc s, rfl⟩
  | .mk (.union lhs rhs) a, acc, h => by
    simp only [is_sym_union, Bool.and_eq_true] at h
    obtain ⟨mid, hmid⟩ := union_to_set_total lhs acc h.1
    obtain ⟨out, hout⟩ := union_to_set_total rhs mid h.2
    exact ⟨out, by simp [union_to_set, hmid, hout]⟩

/-- The symbols of the accumulating union builder. -/
theorem union_from_set_go_usyms {α : Type} :
    ∀ (l : List String) (acc : Exp α) (a : α),
      usyms (union_from_set_go acc l a) = usyms acc ++ l
  | [], acc, a => by simp [union_from_set_go]
  | s :: tl, acc, a => by
    simp [union_from_set_go, union_from_set_go_usyms tl, usyms]

/-- The accumulating union builder stays inside Symbol/Union expressions. -/
theorem union_from_set_go_is_sym_union {α : Type} :
    ∀ (l : List String) (acc : Exp α) (a : α), is_sym_union acc = true →
      is_sym_union (union_from_set_go acc l a) = true
  | [], acc, a, h => h
  | s :: tl, acc, a, h => by
    apply union_from_set_go_is_sym_union tl
    simp [is_sym_union, h]

/-- On at least one symbol, the accumulating union builder tops out at a
Union node. -/
theorem union_from_set_go_union_shape {α : Type} :
    ∀ (tl : List String) (acc : Exp α) (s : String) (a : α),
      ∃ u v ann, union_from_set_go acc (s :: tl) a = .mk (.union u v) ann
  | [], acc, s, a => ⟨acc, .mk (.symbol s) a, a, rfl⟩
  | s2 :: tl, acc, s, a => by
    simp only [union_from_set_go]
    exact union_from_set_go_union_shape tl (.mk (.union acc (.mk (.symbol s) a)) a) s2 a

/-- Lists with the same members are equal as modelled sets. -/
theorem same_set_of_iff (s1 s2 : List String) (h : ∀ x, x ∈ s1 ↔ x ∈ s2) :
    same_set s1 s2 = true := by
  simp only [same_set, Bool.and_eq_true, List.all_eq_true, decide_eq_true_eq]
  exact ⟨fun x hx => (h x).1 hx, fun x hx => (h x).2 hx⟩

/-- Two Union nodes built from Symbol/Union children with equal symbol sets
are equivalent under eq_ignore_annot, via its set-comparison fallback. -/
theorem eq_ignore_annot_union_of_same_set {α : Type} (ul ur el er : Exp α) (ua ea : α)
    (h1 : is_sym_union (.mk (.union ul ur) ua) = true)
    (h2 : is_sym_union (.mk (.union el er) ea) = true)
    (hset : ∀ x, x ∈ usyms ul ++ usyms ur ↔ x ∈ usyms el ++ usyms er) :
    eq_ignore_annot (.mk (.union ul ur) ua) (.mk (.union el er) ea) = true := by
  simp only [is_sym_union, Bool.and_eq_true] at h1 h2
  obtain ⟨hul, hur⟩ := h1
  obtain ⟨hel, her⟩ := h2
  obtain ⟨s1a, hs1a⟩ := union_to_set_total ul [] hul
  obtain ⟨s1, hs1⟩ := union_to_set_total ur s1a hur
  obtain ⟨s2a, hs2a⟩ := union_to_set_total el [] hel
  obtain ⟨s2, hs2⟩ := union_to_set_total er s2a her
  have hm1a := union_to_set_mem ul [] s1a hs1a
  have hm1 := union_to_set_mem ur s1a s1 hs1
  have hm2a := union_to_set_mem el [] s2a hs2a
  have hm2 := union_to_set_mem er s2a s2 hs2
  have hss : same_set s1 s2 = true := by
    apply same_set_of_iff
    intro x
    rw [hm1 x, hm1a x, hm2 x, hm2a x]
    have hx := hset x
    simp only [List.mem_append] at hx
    simp only [List.not_mem_nil, false_or]
    tauto
  simp only [eq_ignore_annot, eq_ignore_annot_node]
  cases hb : (eq_ignore_annot ul el && eq_ignore_annot ur er) with
  | true => simp [hb]
  | false => simp [hb, hs1a, hs1, hs2a, hs2, hss]

/-- A duplicate-free list whose members are exactly one element is that
singleton. -/
theorem eq_singleton_of_nodup_mem_iff (l : List String) (a : String)
    (hnd : l.Nodup) (h : ∀ x, x ∈ l ↔ x = a) : l = [a] := by
  cases l with
  | nil => exact absurd ((h a).2 rfl) (by simp)
  | cons y tl =>
    have hy : y = a := (h y).1 (by simp)
    subst hy
    cases tl with
    | nil => rfl
    | cons z tl2 =>
      have hz : z = y := (h z).1 (by simp)
      subst hz
      simp [List.nodup_cons] at hnd

/-- Claim C7 (amended): for an expression built only from Symbol and Union
nodes, rebuilding a union from the set collected by union_to_set (in any
enumeration order of that set) yields an expression equivalent to the
original under eq_ignore_annot, provided the original is a single Symbol or
its symbol set has at least two elements.  When a Union node's set is a
singleton the rebuilt expression is a Symbol node and eq_ignore_annot
returns false, so the idempotence claim fails there. -/
theorem union_round_trip {α : Type} (e : Exp α) (s l : List String) (a : α)
    (u : Exp α)
    (hsu : is_sym_union e = true)
    (hts : union_to_set e [] = some s)
    (hnd : l.Nodup)
    (hiff : ∀ x, x ∈ l ↔ x ∈ s)
    (hshape : (∃ sym ann, e = .mk (.symbol sym) ann) ∨ 2 ≤ l.length)
    (hfs : union_from_set l a = some u) :
    eq_ignore_annot u e = true := by
  cases e with
  | mk n ann =>
    cases n with
    | identifier i => simp [is_sym_union] at hsu
    | abort => simp [is_sym_union] at hsu
    | matchE e2 arms => simp [is_sym_union] at hsu
    | letE b bs => simp [is_sym_union] at hsu
    | function i b => simp [is_sym_union] at hsu
    | application f x => simp [is_sym_union] at hsu
    | symbol sym =>
      simp only [union_to_set, Option.some.injEq] at hts
      have hl : l = [sym] := by
        apply eq_singleton_of_nodup_mem_iff l sym hnd
        intro x
        rw [hiff x, ← hts]
        simp [set_insert]
      subst hl
      simp only [union_from_set, union_from_set_go, Option.some.injEq] at hfs
      subst hfs
      simp [eq_ignore_annot, eq_ignore_annot_node]
    | union ul ur =>
      rcases hshape with ⟨sym, ann2, habs⟩ | hlen
      · exact absurd habs (by simp)
      · cases l with
        | nil => simp at hlen
        | cons l1 lt =>
          cases lt with
          | nil => simp at hlen
          | cons l2 tl =>
            simp only [union_from_set, Option.some.injEq] at hfs
            obtain ⟨gu, gv, gann, hgo⟩ :=
              union_from_set_go_union_shape tl (.mk (.symbol l1) a) l2 a
            have hu : u = .mk (.union gu gv) gann := by rw [← hfs, hgo]
            have husyms : usyms u = l1 :: l2 :: tl := by
              rw [← hfs, union_from_set_go_usyms]
              simp [usyms]
            have hsyu : is_sym_union u = true := by
              rw [← hfs]
              exact union_from_set_go_is_sym_union (l2 :: tl) (.mk (.symbol l1) a) a rfl
            have hmem := union_to_set_mem (.mk (.union ul ur) ann) [] s hts
            rw [hu]
            apply eq_ignore_annot_union_of_same_set gu gv ul ur gann ann
            · rw [← hu]
              exact hsyu
            · simp only [is_sym_union] at hsu
              simp [is_sym_union, hsu]
            · intro x
              have hx1 : x ∈ usyms gu ++ usyms gv ↔ x ∈ (l1 :: l2 :: tl) := by
                rw [← husyms, hu]
                simp [usyms]
              rw [hx1]
              rw [hiff x, hmem x]
              simp [usyms]

/-- Witness for claim C7: rebuilding the set of the union of a and b in the
opposite enumeration order is equivalent to the original. -/
theorem union_round_trip_witness :
    eq_ignore_annot
      (Exp.mk (Node.union (.mk (.symbol "b") ()) (.mk (.symbol "a") ())) ())
      exC7_e = true :=
  union_round_trip exC7_e ["a", "b"] ["b", "a"] ()
    (Exp.mk (Node.union (.mk (.symbol "b") ()) (.mk (.symbol "a") ())) ())
    (by decide) (by decide) (by decide)
    (by intro x; simp only [List.mem_cons, List.not_mem_nil, or_false]; exact or_comm)
    (Or.inr (by decide)) (by decide)

/-- Counterexample for claim C7 as stated: the union of a with a collects to
the singleton set of a, which rebuilds to the Symbol node a, and
eq_ignore_annot compares a Symbol node with a Union node as false in either
order. -/
theorem union_round_trip_singleton_fails :
    union_to_set exC7_dup [] = some ["a"] ∧
    union_from_set ["a"] () = some (.mk (.symbol "a") ()) ∧
    eq_ignore_annot (.mk (.symbol "a") ()) exC7_dup = false ∧
    eq_ignore_annot exC7_dup (.mk (.symbol "a") ()) = false := by
  refine ⟨by decide, by decide, ?_, ?_⟩
  · simp [exC7_dup, eq_ignore_annot, eq_ignore_annot_node]
  · simp [exC7_dup, eq_ignore_annot, eq_ignore_annot_node]

/-- The UTF-8 byte size of a character list bounds its length. -/
theorem utf8_go_length_le : ∀ l : List Char, l.length ≤ String.utf8ByteSize.go l
  | [] => Nat.le_refl 0
  | c :: cs => by
    have h := utf8_go_length_le cs
    have hc := Char.utf8Size_pos c
    simp only [List.length_cons, String.utf8ByteSize.go]
    omega

/-- The character length of a string bounds its UTF-8 byte size (the Rust
len is the byte size). -/
theorem length_le_utf8ByteSize (s : String) : s.length ≤ s.utf8ByteSize := by
  cases s with
  | mk data => exact utf8_go_length_le data

/-- Folding string concatenation from an accumulator prepends it. -/
theorem string_foldl_append (lines : List String) :
    ∀ acc : String,
      List.foldl (fun r s => r ++ s) acc lines =
        acc ++ List.foldl (fun r s => r ++ s) "" lines := by
  induction lines with
  | nil => intro acc; simp
  | cons l tl ih =>
    intro acc
    simp only [List.foldl_cons]
    rw [ih (acc ++ l), ih ("" ++ l)]
    simp [String.append_assoc]

/-- Unfolding of String.join over a cons. -/
theorem string_join_cons (line : String) (lines : List String) :
    String.join (line :: lines) = line ++ String.join lines := by
  simp only [String.join, List.foldl_cons]
  rw [string_foldl_append lines ("" ++ line)]
  rfl

/-- Characterization of a successful transition print-out: one line per
transition, concatenated. -/
theorem export_transitions_ok :
    ∀ (ts : List Transition) (out : String), export_transitions ts = .ok out →
      ∃ lines, List.Forall₂ (fun t l => transition_line t = .ok l) ts lines ∧
        out = String.join lines
  | [], out, h => by
    simp only [export_transitions, Except.ok.injEq] at h
    exact ⟨[], List.Forall₂.nil, by simp [String.join, ← h]⟩
  | t :: rest, out, h => by
    simp only [export_transitions] at h
    cases hl : transition_line t with
    | error e => rw [hl] at h; exact absurd h (by simp)
    | ok line =>
      rw [hl] at h
      cases hr : export_transitions rest with
      | error e => rw [hr] at h; exact absurd h (by simp)
      | ok restS =>
        rw [hr] at h
        simp only [Except.ok.injEq] at h
        obtain ⟨lines, hfa, hjoin⟩ := export_transitions_ok rest restS hr
        exact ⟨line :: lines, List.Forall₂.cons hl hfa,
          by rw [string_join_cons, ← hjoin, h]⟩

/-- A transition with an unconvertible symbol makes the line printer fail. -/
theorem transition_line_error_of_symbol (t : Transition)
    (h : (∃ e, convert_symbol t.frm.2 = .error e) ∨
      (∃ e, convert_symbol t.tgt.2 = .error e)) :
    ∃ e, transition_line t = .error e := by
  cases hf : convert_symbol t.frm.2 with
  | error e => exact ⟨e, by simp [transition_line, hf]⟩
  | ok fs =>
    cases ht : convert_symbol t.tgt.2 with
    | error e => exact ⟨e, by simp [transition_line, hf, ht]⟩
    | ok ts =>
      rcases h with ⟨e, he⟩ | ⟨e, he⟩
      · rw [hf] at he; exact absurd he (by simp)
      · rw [ht] at he; exact absurd he (by simp)

/-- A failing line anywhere makes the transition print-out fail. -/
theorem export_transitions_error_of_mem :
    ∀ (ts : List Transition) (t : Transition), t ∈ ts →
      (∃ e, transition_line t = .error e) →
      ∃ e, export_transitions ts = .error e
  | [], t, hmem, _ => absurd hmem (by simp)
  | hd :: rest, t, hmem, hbad => by
    cases hl : transition_line hd with
    | error e => exact ⟨e, by simp [export_transitions, hl]⟩
    | ok line =>
      have hne : t ≠ hd := by
        intro hEq
        obtain ⟨e, he⟩ := hbad
        rw [hEq, hl] at he
        exact absurd he (by simp)
      have hmem2 : t ∈ rest := by
        cases List.mem_cons.1 hmem with
        | inl hEq => exact absurd hEq hne
        | inr h2 => exact h2
      obtain ⟨e, he⟩ := export_transitions_error_of_mem rest t hmem2 hbad
      exact ⟨e, by simp [export_transitions, hl, he]⟩

/-- The sorting comparison of the exporter is transitive. -/
theorem transition_le_trans (a b c : Transition) (h1 : transition_le a b = true)
    (h2 : transition_le b c = true) : transition_le a c = true := by
  simp only [transition_le, Bool.or_eq_true, Bool.and_eq_true, decide_eq_true_eq] at h1 h2 ⊢
  omega

/-- The sorting comparison of the exporter is total. -/
theorem transition_le_total (a b : Transition) :
    (transition_le a b || transition_le b a) = true := by
  simp only [transition_le, Bool.or_eq_true, Bool.and_eq_true, decide_eq_true_eq]
  omega

/-- Claim C6: the awmorp export prints one transition per line in the form
from-state, from-symbol, to-symbol, direction, to-state, with transitions
sorted by the pair of from-state and to-state; state 0 prints as 0, state 1
as halt-accept, state 2 as halt-reject, and every state of index at least 3
as that index minus 2; the blank symbol prints as an underscore and a
missing symbol as a star; and the export fails on any explicit symbol that
is an underscore, a semicolon, a star, a whitespace character, or longer
than one character. -/
theorem awmorp_export_spec :
    (convert_state 0 = "0") ∧
    (convert_state 1 = "halt-accept") ∧
    (convert_state 2 = "halt-reject") ∧
    (∀ n, 3 ≤ n → convert_state n = toString (n - 2)) ∧
    (convert_symbol (some "") = .ok '_') ∧
    (convert_symbol none = .ok '*') ∧
    (∀ s : String, s = "_" ∨ s = ";" ∨ s = "*" →
      ∃ e, convert_symbol (some s) = .error e) ∧
    (∀ (s : String) (c : Char), s.data = [c] → rust_is_whitespace c = true →
      ∃ e, convert_symbol (some s) = .error e) ∧
    (∀ s : String, 1 < s.length → ∃ e, convert_symbol (some s) = .error e) ∧
    (∀ (m : Machine) (out : String), awmorp_export m = .ok out →
      ∃ ts, List.Perm ts m.transitions ∧
        List.Pairwise (fun a b => transition_le a b = true) ts ∧
        ∃ lines, List.Forall₂ (fun t l => transition_line t = .ok l) ts lines ∧
          out = String.join lines) ∧
    (∀ m : Machine,
      (∃ t ∈ m.transitions, (∃ e, convert_symbol t.frm.2 = .error e) ∨
        (∃ e, convert_symbol t.tgt.2 = .error e)) →
      ∃ e, awmorp_export m = .error e) := by
  refine ⟨rfl, rfl, rfl, ?_, rfl, rfl, ?_, ?_, ?_, ?_, ?_⟩
  · intro n hn
    have h0 : n ≠ 0 := by omega
    have h1 : n ≠ 1 := by omega
    have h2 : n ≠ 2 := by omega
    simp [convert_state, h0, h1, h2]
  · rintro s (rfl | rfl | rfl)
    · exact ⟨_, rfl⟩
    · exact ⟨_, rfl⟩
    · exact ⟨_, rfl⟩
  · intro s c hdata hws
    cases s with
    | mk data =>
      simp only [String.data] at hdata
      subst hdata
      have hsz : String.utf8ByteSize (String.mk [c]) = c.utf8Size := by
        simp [String.utf8ByteSize, String.utf8ByteSize.go]
      have hpos := Char.utf8Size_pos c
      by_cases hbig : 1 < c.utf8Size
      · refine ⟨"Unsupported symbol '" ++ String.mk [c] ++ "', only one character allowed", ?_⟩
        simp only [convert_symbol, hsz]
        rw [if_neg (by omega), if_pos hbig]
      · have h1 : c.utf8Size = 1 := by omega
        have hres : ¬ (c = '_' ∨ c = ';' ∨ c = '*') := by
          rintro (rfl | rfl | rfl) <;> simp [rust_is_whitespace] at hws
        refine ⟨"Unsupported symbol '" ++ String.mk [c] ++ "', whitespace not allowed", ?_⟩
        simp only [convert_symbol, hsz, h1]
        rw [if_neg (by omega), if_neg (by omega)]
        simp only [if_neg hres, hws, if_true]
  · intro s hlen
    have hsz := length_le_utf8ByteSize s
    refine ⟨"Unsupported symbol '" ++ s ++ "', only one character allowed", ?_⟩
    simp only [convert_symbol]
    rw [if_neg (by omega), if_pos (by omega)]
  · intro m out h
    refine ⟨m.transitions.mergeSort transition_le, List.mergeSort_perm m.transitions _,
      List.sorted_mergeSort transition_le_trans transition_le_total m.transitions, ?_⟩
    exact export_transitions_ok _ out h
  · intro m hbad
    obtain ⟨t, hmem, hsym⟩ := hbad
    have hline := transition_line_error_of_symbol t hsym
    have hmem2 : t ∈ m.transitions.mergeSort transition_le :=
      ((List.mergeSort_perm m.transitions transition_le).mem_iff).2 hmem
    exact export_transitions_error_of_mem _ t hmem2 hline

/-- Witness for claim C6 at concrete states, symbols and machines. -/
theorem awmorp_export_spec_witness :
    convert_state 5 = toString (5 - 2) ∧
    (∃ e, convert_symbol (some "_") = .error e) ∧
    (∃ e, convert_symbol (some " ") = .error e) ∧
    (∃ e, convert_symbol (some "ab") = .error e) ∧
    (∃ ts, List.Perm ts exC6_m.transitions ∧
      List.Pairwise (fun a b => transition_le a b = true) ts ∧
      ∃ lines, List.Forall₂ (fun t l => transition_line t = .ok l) ts lines ∧
        "0 a * * halt-accept\n" = String.join lines) ∧
    (∃ e, awmorp_export exC6_bad = .error e) :=
  ⟨awmorp_export_spec.2.2.2.1 5 (by decide),
   awmorp_export_spec.2.2.2.2.2.2.1 "_" (Or.inl rfl),
   awmorp_export_spec.2.2.2.2.2.2.2.1 " " ' ' rfl (by decide),
   awmorp_export_spec.2.2.2.2.2.2.2.2.1 "ab" (by decide),
   awmorp_export_spec.2.2.2.2.2.2.2.2.2.1 exC6_m "0 a * * halt-accept\n"
     (by
       rw [show awmorp_export exC6_m =
         export_transitions ([Transition.mk (0, some "a") (1, none)
           Direction.stay].mergeSort transition_le) from rfl,
         List.mergeSort_singleton]
       rfl),
   awmorp_export_spec.2.2.2.2.2.2.2.2.2.2 exC6_bad
     ⟨Transition.mk (0, some "_") (1, none) .stay, by simp [exC6_bad],
       Or.inl ⟨_, rfl⟩⟩⟩

/-- A resolution pass preserves the cell count. -/
theorem resolve_step_length :
    ∀ (cs : List (Nat × Nat)) (types t2 : List Ty) (ch ch2 : Bool),
      resolve_step types cs ch = some (t2, ch2) → t2.length = types.length
  | [], types, t2, ch, ch2, h => by
    simp only [resolve_step, Option.some.injEq, Prod.mk.injEq] at h
    rw [← h.1]
  | (f, t) :: rest, types, t2, ch, ch2, h => by
    simp only [resolve_step] at h
    cases hf : types[f]? with
    | none => rw [hf] at h; exact absurd h (by simp)
    | some tf =>
      cases ht : types[t]? with
      | none => rw [hf, ht] at h; exact absurd h (by simp)
      | some tt =>
        rw [hf, ht] at h
        dsimp only at h
        by_cases h1 : tf = .unresolvedUnion 0 ∧ tt = .symbol
        · rw [if_pos h1] at h
          have := resolve_step_length rest (types.set f .symbol) t2 true ch2 h
          rw [this, List.length_set]
        · rw [if_neg h1] at h
          by_cases h2 : tf = .union ∧ tt = .symbol
          · rw [if_pos h2] at h; exact absurd h (by simp)
          · rw [if_neg h2] at h
            exact resolve_step_length rest types t2 ch ch2 h

/-- A resolution pass started with the changed flag set reports a change. -/
theorem resolve_step_monotone :
    ∀ (cs : List (Nat × Nat)) (types t2 : List Ty) (ch2 : Bool),
      resolve_step types cs true = some (t2, ch2) → ch2 = true
  | [], types, t2, ch2, h => by
    simp only [resolve_step, Option.some.injEq, Prod.mk.injEq] at h
    exact h.2.symm
  | (f, t) :: rest, types, t2, ch2, h => by
    simp only [resolve_step] at h
    cases hf : types[f]? with
    | none => rw [hf] at h; exact absurd h (by simp)
    | some tf =>
      cases ht : types[t]? with
      | none => rw [hf, ht] at h; exact absurd h (by simp)
      | some tt =>
        rw [hf, ht] at h
        dsimp only at h
        by_cases h1 : tf = .unresolvedUnion 0 ∧ tt = .symbol
        · rw [if_pos h1] at h
          exact resolve_step_monotone rest (types.set f .symbol) t2 ch2 h
        · rw [if_neg h1] at h
          by_cases h2 : tf = .union ∧ tt = .symbol
          · rw [if_pos h2] at h; exact absurd h (by simp)
          · rw [if_neg h2] at h
            exact resolve_step_monotone rest types t2 ch2 h

/-- A pass that reports no change did not touch the cells. -/
theorem resolve_step_nochange :
    ∀ (cs : List (Nat × Nat)) (types t2 : List Ty),
      resolve_step types cs false = some (t2, false) → t2 = types
  | [], types, t2, h => by
    simp only [resolve_step, Option.some.injEq, Prod.mk.injEq] at h
    exact h.1.symm
  | (f, t) :: rest, types, t2, h => by
    simp only [resolve_step] at h
    cases hf : types[f]? with
    | none => rw [hf] at h; exact absurd h (by simp)
    | some tf =>
      cases ht : types[t]? with
      | none => rw [hf, ht] at h; exact absurd h (by simp)
      | some tt =>
        rw [hf, ht] at h
        dsimp only at h
        by_cases h1 : tf = .unresolvedUnion 0 ∧ tt = .symbol
        · rw [if_pos h1] at h
          exact absurd (resolve_step_monotone rest _ t2 false h) (by simp)
        · rw [if_neg h1] at h
          by_cases h2 : tf = .union ∧ tt = .symbol
          · rw [if_pos h2] at h; exact absurd h (by simp)
          · rw [if_neg h2] at h
            exact resolve_step_nochange rest types t2 h

/-- A resolution pass preserves the loop invariant. -/
theorem resolve_step_inv (casts : List (Nat × Nat)) :
    ∀ (cs : List (Nat × Nat)) (types t2 : List Ty) (ch ch2 : Bool),
      (∀ e ∈ cs, e ∈ casts) → ResolveInv casts types →
      resolve_step types cs ch = some (t2, ch2) → ResolveInv casts t2
  | [], types, t2, ch, ch2, hsub, hinv, h => by
    simp only [resolve_step, Option.some.injEq, Prod.mk.injEq] at h
    rw [← h.1]
    exact hinv
  | (f, t) :: rest, types, t2, ch, ch2, hsub, hinv, h => by
    simp only [resolve_step] at h
    cases hf : types[f]? with
    | none => rw [hf] at h; exact absurd h (by simp)
    | some tf =>
      cases ht : types[t]? with
      | none => rw [hf, ht] at h; exact absurd h (by simp)
      | some tt =>
        rw [hf, ht] at h
        dsimp only at h
        by_cases h1 : tf = .unresolvedUnion 0 ∧ tt = .symbol
        · rw [if_pos h1] at h
          have hreach : ReachCast casts f 0 := by
            apply Relation.ReflTransGen.head
              (show cast_edge casts f t from hsub (f, t) (by simp))
            exact hinv.2.2.2 t (h1.2 ▸ ht)
          have hfne0 : f ≠ 0 := by
            intro hEq
            rw [hEq, hinv.1] at hf
            cases hf
            cases h1.1
          have hfne1 : f ≠ 1 := by
            intro hEq
            rw [hEq, hinv.2.1] at hf
            cases hf
            cases h1.1
          have hinv2 : ResolveInv casts (types.set f .symbol) := by
            refine ⟨?_, ?_, ?_, ?_⟩
            · rw [List.getElem?_set_ne hfne0]
              exact hinv.1
            · rw [List.getElem?_set_ne hfne1]
              exact hinv.2.1
            · intro i v hv hi
              by_cases hif : f = i
              · subst hif
                rw [List.getElem?_set] at hv
                by_cases hlt : f < types.length
                · simp only [if_pos rfl, if_pos hlt] at hv
                  cases hv
                  exact Or.inr rfl
                · simp only [if_pos rfl, if_neg hlt] at hv
                  cases hv
              · rw [List.getElem?_set_ne hif] at hv
                exact hinv.2.2.1 i v hv hi
            · intro i hv
              by_cases hif : f = i
              · subst hif
                exact hreach
              · rw [List.getElem?_set_ne hif] at hv
                exact hinv.2.2.2 i hv
          exact resolve_step_inv casts rest (types.set f .symbol) t2 true ch2
            (fun e he => hsub e (by simp [he])) hinv2 h
        · rw [if_neg h1] at h
          by_cases h2 : tf = .union ∧ tt = .symbol
          · rw [if_pos h2] at h; exact absurd h (by simp)
          · rw [if_neg h2] at h
            exact resolve_step_inv casts rest types t2 ch ch2
              (fun e he => hsub e (by simp [he])) hinv h

/-- The resolution loop preserves the invariant and stops at a fixpoint. -/
theorem resolve_loop_spec (casts : List (Nat × Nat)) :
    ∀ (fuel : Nat) (types final : List Ty),
      ResolveInv casts types →
      resolve_loop fuel types casts = some final →
      ResolveInv casts final ∧ final.length = types.length ∧
        resolve_step final casts false = some (final, false)
  | 0, types, final, _, h => by simp [resolve_loop] at h
  | fuel + 1, types, final, hinv, h => by
    simp only [resolve_loop] at h
    cases hs : resolve_step types casts false with
    | none => rw [hs] at h; exact absurd h (by simp)
    | some p =>
      obtain ⟨t2, ch⟩ := p
      rw [hs] at h
      have hinv2 := resolve_step_inv casts casts types t2 false ch
        (fun e he => he) hinv hs
      have hlen := resolve_step_length casts types t2 false ch hs
      cases ch with
      | true =>
        dsimp only at h
        obtain ⟨ha, hb, hc⟩ := resolve_loop_spec casts fuel t2 final hinv2 h
        exact ⟨ha, by rw [hb, hlen], hc⟩
      | false =>
        dsimp only at h
        simp only [Option.some.injEq] at h
        have hnc := resolve_step_nochange casts types t2 hs
        subst hnc
        subst h
        exact ⟨hinv, rfl, hs⟩

/-- At a fixpoint, no edge points from an unresolved or Union cell to a
Symbol cell. -/
theorem resolve_fixpoint_closed :
    ∀ (cs : List (Nat × Nat)) (types : List Ty),
      resolve_step types cs false = some (types, false) →
      ∀ f t, (f, t) ∈ cs →
        ∃ tf tt, types[f]? = some tf ∧ types[t]? = some tt ∧
          ¬(tf = .unresolvedUnion 0 ∧ tt = .symbol) ∧
          ¬(tf = .union ∧ tt = .symbol)
  | [], types, h, f, t, hmem => absurd hmem (by simp)
  | (f0, t0) :: rest, types, h, f, t, hmem => by
    simp only [resolve_step] at h
    cases hf : types[f0]? with
    | none => rw [hf] at h; exact absurd h (by simp)
    | some tf0 =>
      cases ht : types[t0]? with
      | none => rw [hf, ht] at h; exact absurd h (by simp)
      | some tt0 =>
        rw [hf, ht] at h
        dsimp only at h
        by_cases h1 : tf0 = .unresolvedUnion 0 ∧ tt0 = .symbol
        · rw [if_pos h1] at h
          exact absurd (resolve_step_monotone rest _ types false h) (by simp)
        · rw [if_neg h1] at h
          by_cases h2 : tf0 = .union ∧ tt0 = .symbol
          · rw [if_pos h2] at h; exact absurd h (by simp)
          · rw [if_neg h2] at h
            cases List.mem_cons.1 hmem with
            | inl hEq =>
              injection hEq with hEq1 hEq2
              subst hEq1
              subst hEq2
              exact ⟨tf0, tt0, hf, ht, h1, h2⟩
            | inr h3 => exact resolve_fixpoint_closed rest types h f t h3

/-- At a panic-free fixpoint, every cell that reaches id 0 holds Symbol. -/
theorem resolve_fixpoint_complete (casts : List (Nat × Nat)) (types : List Ty)
    (hinv : ResolveInv casts types)
    (hfix : resolve_step types casts false = some (types, false)) :
    ∀ i, ReachCast casts i 0 → ∀ v, types[i]? = some v → v = Ty.symbol := by
  intro i hreach
  induction hreach using Relation.ReflTransGen.head_induction_on with
  | refl =>
    intro v hv
    rw [hinv.1] at hv
    cases hv
    rfl
  | head hedge htail ih =>
    rename_i a c
    intro v hv
    obtain ⟨tf, tt, hft, htt, h1, h2⟩ :=
      resolve_fixpoint_closed casts types hfix a c hedge
    have hva : tf = v := by
      rw [hft] at hv
      cases hv
      rfl
    subst hva
    have htc : tt = Ty.symbol := ih tt htt
    subst htc
    by_cases ha0 : a = 0
    · subst ha0
      rw [hinv.1] at hft
      cases hft
      rfl
    by_cases ha1 : a = 1
    · subst ha1
      rw [hinv.2.1] at hft
      cases hft
      exact absurd ⟨rfl, rfl⟩ h2
    have hge : 2 ≤ a := by omega
    cases hinv.2.2.1 a tf hft hge with
    | inl hu => exact absurd ⟨hu, rfl⟩ h1
    | inr hs => exact hs

/-- The defaulting pass keeps the cell count. -/
theorem default_unions_length :
    ∀ (ts : List Ty) (k : Nat), (default_unions k ts).length = ts.length
  | [], _ => rfl
  | t :: ts, k => by
    simp [default_unions, default_unions_length ts (k + 1)]

/-- Cell-wise description of the defaulting pass. -/
theorem default_unions_getElem? :
    ∀ (ts : List Ty) (k i : Nat),
      (default_unions k ts)[i]? = (ts[i]?).map
        (fun t => if 2 ≤ k + i ∧ t = .unresolvedUnion 0 then Ty.union else t)
  | [], k, i => by simp [default_unions]
  | t :: ts, k, 0 => by simp [default_unions]
  | t :: ts, k, i + 1 => by
    simp only [default_unions, List.getElem?_cons_succ]
    rw [default_unions_getElem? ts (k + 1) i]
    have harith : k + 1 + i = k + (i + 1) := by omega
    rw [harith]

/-- Full description of generate_resolved on a panic-free run: the result
has one cell per id, a cell of id at least 2 is Symbol exactly when the id
reaches id 0 along cast edges and Union exactly otherwise, and every cell is
Symbol or Union. -/
theorem generate_resolved_spec (count : Nat) (casts : List (Nat × Nat))
    (types : List Ty) (hc : 2 ≤ count)
    (h : generate_resolved count casts = some types) :
    types.length = count ∧
    (∀ i, 2 ≤ i → i < count →
      ((types[i]? = some Ty.symbol ↔ ReachCast casts i 0) ∧
       (types[i]? = some Ty.union ↔ ¬ ReachCast casts i 0))) ∧
    (∀ (i : Nat) (v : Ty), types[i]? = some v → (v = Ty.symbol ∨ v = Ty.union)) := by
  simp only [generate_resolved] at h
  have htake : ([Ty.symbol, Ty.union]).take count = [Ty.symbol, Ty.union] :=
    List.take_of_length_le (by simp; omega)
  rw [htake] at h
  simp only [List.cons_append, List.nil_append] at h
  cases hl : resolve_loop (count + 1)
      (Ty.symbol :: Ty.union :: List.replicate (count - 2) (Ty.unresolvedUnion 0))
      casts with
  | none => rw [hl] at h; exact absurd h (by simp)
  | some mid =>
    rw [hl] at h
    simp only [Option.some.injEq] at h
    have hinv0 : ResolveInv casts
        (Ty.symbol :: Ty.union :: List.replicate (count - 2) (Ty.unresolvedUnion 0)) := by
      refine ⟨by simp, by simp, ?_, ?_⟩
      · intro i v hv hi
        obtain ⟨j, rfl⟩ : ∃ j, i = j + 2 := ⟨i - 2, by omega⟩
        simp only [List.getElem?_cons_succ, List.getElem?_replicate] at hv
        by_cases hj : j < count - 2
        · rw [if_pos hj] at hv
          cases hv
          exact Or.inl rfl
        · rw [if_neg hj] at hv
          cases hv
      · intro i hv
        match i, hv with
        | 0, _ => exact Relation.ReflTransGen.refl
        | 1, hv => simp at hv
        | j + 2, hv =>
          simp only [List.getElem?_cons_succ, List.getElem?_replicate] at hv
          by_cases hj : j < count - 2
          · rw [if_pos hj] at hv
            exact absurd hv (by simp)
          · rw [if_neg hj] at hv
            exact absurd hv (by simp)
    obtain ⟨hmidinv, hmidlen, hfix⟩ := resolve_loop_spec casts (count + 1) _ mid hinv0 hl
    have hmidlen2 : mid.length = count := by
      rw [hmidlen]
      simp [List.length_replicate]
      omega
    subst h
    refine ⟨?_, ?_, ?_⟩
    · rw [default_unions_length, hmidlen2]
    · intro i h2i hic
      have hilt : i < mid.length := by omega
      obtain ⟨v, hv⟩ : ∃ v, mid[i]? = some v := ⟨_, List.getElem?_eq_getElem hilt⟩
      have hclass := hmidinv.2.2.1 i v hv h2i
      have hd : (default_unions 0 mid)[i]? =
          some (if 2 ≤ i ∧ v = .unresolvedUnion 0 then Ty.union else v) := by
        rw [default_unions_getElem?, hv]
        simp only [Option.map_some']
        have : (0 : Nat) + i = i := by omega
        rw [this]
      cases hclass with
      | inr hsymb =>
        subst hsymb
        have hreach : ReachCast casts i 0 := hmidinv.2.2.2 i hv
        rw [hd]
        constructor
        · constructor
          · intro _; exact hreach
          · intro _
            simp
        · constructor
          · intro habs
            simp at habs
          · intro hnot
            exact absurd hreach hnot
      | inl huu =>
        subst huu
        have hnreach : ¬ ReachCast casts i 0 := by
          intro hreach
          have := resolve_fixpoint_complete casts mid hmidinv hfix i hreach _ hv
          cases this
        rw [hd]
        simp only [h2i, true_and, if_pos rfl]
        constructor
        · constructor
          · intro habs
            simp at habs
          · intro hreach
            exact absurd hreach hnreach
        · constructor
          · intro _; exact hnreach
          · intro _; simp
    · intro i v' hv'
      rw [default_unions_getElem?] at hv'
      cases hm : mid[i]? with
      | none => rw [hm] at hv'; exact absurd hv' (by simp)
      | some v =>
        rw [hm] at hv'
        simp only [Option.map_some', Option.some.injEq] at hv'
        by_cases hcond : 2 ≤ 0 + i ∧ v = .unresolvedUnion 0
        · rw [if_pos hcond] at hv'
          exact Or.inr hv'.symm
        · rw [if_neg hcond] at hv'
          rw [← hv']
          by_cases h2i : 2 ≤ i
          · cases hmidinv.2.2.1 i v hm h2i with
            | inl huu => exact absurd ⟨by omega, huu⟩ hcond
            | inr hs => exact Or.inl hs
          · have hi01 : i = 0 ∨ i = 1 := by omega
            cases hi01 with
            | inl h0 =>
              subst h0
              rw [hmidinv.1] at hm
              cases hm
              exact Or.inl rfl
            | inr h1 =>
              subst h1
              rw [hmidinv.2.1] at hm
              cases hm
              exact Or.inr rfl

/-- Renumbering a type never decreases the fresh-id counter. -/
theorem fix_ids_in_type_count_le : ∀ (t : Ty) (c : Nat), c ≤ (fix_ids_in_type t c).2
  | .function a r, c => by
    have h1 := fix_ids_in_type_count_le a c
    have h2 := fix_ids_in_type_count_le r (fix_ids_in_type a c).2
    simp only [fix_ids_in_type]
    omega
  | .symbol, c => Nat.le_refl c
  | .union, c => Nat.le_refl c
  | .tape, c => Nat.le_refl c
  | .halt, c => Nat.le_refl c
  | .unresolvedUnion 0, c => by simp [fix_ids_in_type]
  | .unresolvedUnion (n + 1), c => Nat.le_refl c

mutual
/-- Renumbering an expression never decreases the fresh-id counter. -/
theorem fix_ids_count_le :
    ∀ (e : Exp Annot) (c : Nat) (e2 : Exp Annot) (c2 : Nat),
      fix_ids e c = some (e2, c2) → c ≤ c2
  | .mk (.identifier i) (Annot.mk t loc), c, e2, c2, h => by
    simp only [fix_ids, Option.some.injEq, Prod.mk.injEq] at h
    have := fix_ids_in_type_count_le t c
    omega
  | .mk (.symbol s) (Annot.mk t loc), c, e2, c2, h => by
    simp only [fix_ids, Option.some.injEq, Prod.mk.injEq] at h
    have := fix_ids_in_type_count_le t c
    omega
  | .mk .abort (Annot.mk t loc), c, e2, c2, h => by
    simp only [fix_ids] at h
    exact absurd h (by simp)
  | .mk (.letE b bs) (Annot.mk t loc), c, e2, c2, h => by
    simp only [fix_ids] at h
    exact absurd h (by simp)
  | .mk (.union lhs rhs) (Annot.mk t loc), c, e2, c2, h => by
    simp only [fix_ids] at h
    cases ha : fix_ids lhs (fix_ids_in_type t c).2 with
    | none => rw [ha] at h; exact absurd h (by simp)
    | some p =>
      obtain ⟨lhs2, ca⟩ := p
      rw [ha] at h
      dsimp only at h
      cases hb : fix_ids rhs ca with
      | none => rw [hb] at h; exact absurd h (by simp)
      | some q =>
        obtain ⟨rhs2, cb⟩ := q
        rw [hb] at h
        simp only [Option.some.injEq, Prod.mk.injEq] at h
        have h0 := fix_ids_in_type_count_le t c
        have h1 := fix_ids_count_le lhs _ _ _ ha
        have h2 := fix_ids_count_le rhs _ _ _ hb
        obtain ⟨-, hc2⟩ := h
        omega
  | .mk (.matchE me arms) (Annot.mk t loc), c, e2, c2, h => by
    simp only [fix_ids] at h
    cases ha : fix_ids me (fix_ids_in_type t c).2 with
    | none => rw [ha] at h; exact absurd h (by simp)
    | some p =>
      obtain ⟨me2, ca⟩ := p
      rw [ha] at h
      dsimp only at h
      cases hb : fix_ids_arms arms ca with
      | none => rw [hb] at h; exact absurd h (by simp)
      | some q =>
        obtain ⟨arms2, cb⟩ := q
        rw [hb] at h
        simp only [Option.some.injEq, Prod.mk.injEq] at h
        have h0 := fix_ids_in_type_count_le t c
        have h1 := fix_ids_count_le me _ _ _ ha
        have h2 := fix_ids_arms_count_le arms _ _ _ hb
        obtain ⟨-, hc2⟩ := h
        omega
  | .mk (.function arg fe) (Annot.mk t loc), c, e2, c2, h => by
    simp only [fix_ids] at h
    cases ha : fix_ids fe (fix_ids_in_type t c).2 with
    | none => rw [ha] at h; exact absurd h (by simp)
    | some p =>
      obtain ⟨fe2, ca⟩ := p
      rw [ha] at h
      dsimp only at h
      simp only [Option.some.injEq, Prod.mk.injEq] at h
      have h0 := fix_ids_in_type_count_le t c
      have h1 := fix_ids_count_le fe _ _ _ ha
      obtain ⟨-, hc2⟩ := h
      omega
  | .mk (.application f x) (Annot.mk t loc), c, e2, c2, h => by
    simp only [fix_ids] at h
    cases ha : fix_ids f (fix_ids_in_type t c).2 with
    | none => rw [ha] at h; exact absurd h (by simp)
    | some p =>
      obtain ⟨f2, ca⟩ := p
      rw [ha] at h
      dsimp only at h
      cases hb : fix_ids x ca with
      | none => rw [hb] at h; exact absurd h (by simp)
      | some q =>
        obtain ⟨x2, cb⟩ := q
        rw [hb] at h
        simp only [Option.some.injEq, Prod.mk.injEq] at h
        have h0 := fix_ids_in_type_count_le t c
        have h1 := fix_ids_count_le f _ _ _ ha
        have h2 := fix_ids_count_le x _ _ _ hb
        obtain ⟨-, hc2⟩ := h
        omega
/-- Arm-list version of the counter monotonicity. -/
theorem fix_ids_arms_count_le :
    ∀ (arms : Arms Annot) (c : Nat) (arms2 : Arms Annot) (c2 : Nat),
      fix_ids_arms arms c = some (arms2, c2) → c ≤ c2
  | .nil, c, arms2, c2, h => by
    simp only [fix_ids_arms, Option.some.injEq, Prod.mk.injEq] at h
    omega
  | .cons (.mk cid (.union pexp) e) tl, c, arms2, c2, h => by
    simp only [fix_ids_arms] at h
    cases hpe : fix_ids pexp c with
    | none => rw [hpe] at h; exact absurd h (by simp)
    | some pp =>
      obtain ⟨p2, cp⟩ := pp
      rw [hpe] at h
      dsimp only at h
      cases he : fix_ids e cp with
      | none => rw [he] at h; exact absurd h (by simp)
      | some ec =>
        obtain ⟨e2, ce⟩ := ec
        rw [he] at h
        dsimp only at h
        cases ht : fix_ids_arms tl ce with
        | none => rw [ht] at h; exact absurd h (by simp)
        | some tc =>
          obtain ⟨tl2, ct⟩ := tc
          rw [ht] at h
          simp only [Option.some.injEq, Prod.mk.injEq] at h
          have h1 := fix_ids_count_le pexp _ _ _ hpe
          have h2 := fix_ids_count_le e _ _ _ he
          have h3 := fix_ids_arms_count_le tl _ _ _ ht
          obtain ⟨-, hct⟩ := h
          omega
  | .cons (.mk cid .any e) tl, c, arms2, c2, h => by
    simp only [fix_ids_arms] at h
    cases he : fix_ids e c with
    | none => rw [he] at h; exact absurd h (by simp)
    | some ec =>
      obtain ⟨e2, ce⟩ := ec
      rw [he] at h
      dsimp only at h
      cases ht : fix_ids_arms tl ce with
      | none => rw [ht] at h; exact absurd h (by simp)
      | some tc =>
        obtain ⟨tl2, ct⟩ := tc
        rw [ht] at h
        simp only [Option.some.injEq, Prod.mk.injEq] at h
        have h2 := fix_ids_count_le e _ _ _ he
        have h3 := fix_ids_arms_count_le tl _ _ _ ht
        obtain ⟨-, hct⟩ := h
        omega
end

/-- Substituting from a table free of UnresolvedUnion entries yields a type
free of UnresolvedUnion. -/
theorem remove_unresolved_in_type_noUU :
    ∀ (t : Ty) (types : List Ty) (t2 : Ty),
      (∀ (i : Nat) (v : Ty), types[i]? = some v → v.hasUU = false) →
      remove_unresolved_in_type t types = some t2 → t2.hasUU = false
  | .function a r, types, t2, hty, h => by
    simp only [remove_unresolved_in_type] at h
    cases ha : remove_unresolved_in_type a types with
    | none => rw [ha] at h; exact absurd h (by simp)
    | some a2 =>
      rw [ha] at h
      cases hr : remove_unresolved_in_type r types with
      | none => rw [hr] at h; exact absurd h (by simp)
      | some r2 =>
        rw [hr] at h
        simp only [Option.some.injEq] at h
        subst h
        simp [Ty.hasUU, remove_unresolved_in_type_noUU a types a2 hty ha,
          remove_unresolved_in_type_noUU r types r2 hty hr]
  | .unresolvedUnion id, types, t2, hty, h => hty id t2 h
  | .symbol, types, t2, hty, h => by
    simp only [remove_unresolved_in_type, Option.some.injEq] at h
    subst h
    rfl
  | .union, types, t2, hty, h => by
    simp only [remove_unresolved_in_type, Option.some.injEq] at h
    subst h
    rfl
  | .tape, types, t2, hty, h => by
    simp only [remove_unresolved_in_type, Option.some.injEq] at h
    subst h
    rfl
  | .halt, types, t2, hty, h => by
    simp only [remove_unresolved_in_type, Option.some.injEq] at h
    subst h
    rfl

mutual
/-- Substituting from a table free of UnresolvedUnion entries yields an AST
without UnresolvedUnion annotations. -/
theorem remove_unresolved_noUU :
    ∀ (e : Exp Annot) (types : List Ty) (e2 : Exp Annot),
      (∀ (i : Nat) (v : Ty), types[i]? = some v → v.hasUU = false) →
      remove_unresolved e types = some e2 → exp_hasUU e2 = false
  | .mk n (Annot.mk t loc), types, e2, hty, h => by
    simp only [remove_unresolved] at h
    cases htt : remove_unresolved_in_type t types with
    | none => rw [htt] at h; exact absurd h (by simp)
    | some t2 =>
      rw [htt] at h
      dsimp only at h
      have ht2 := remove_unresolved_in_type_noUU t types t2 hty htt
      cases n with
      | identifier i =>
        simp only [Option.some.injEq] at h
        subst h
        simp [exp_hasUU, node_hasUU, ht2]
      | symbol s =>
        simp only [Option.some.injEq] at h
        subst h
        simp [exp_hasUU, node_hasUU, ht2]
      | abort => exact absurd h (by simp)
      | letE b bs => exact absurd h (by simp)
      | union lhs rhs =>
        dsimp only at h
        cases ha : remove_unresolved lhs types with
        | none => rw [ha] at h; exact absurd h (by simp)
        | some lhs2 =>
          rw [ha] at h
          cases hb : remove_unresolved rhs types with
          | none => rw [hb] at h; exact absurd h (by simp)
          | some rhs2 =>
            rw [hb] at h
            simp only [Option.some.injEq] at h
            subst h
            simp [exp_hasUU, node_hasUU, ht2,
              remove_unresolved_noUU lhs types lhs2 hty ha,
              remove_unresolved_noUU rhs types rhs2 hty hb]
      | matchE me arms =>
        dsimp only at h
        cases ha : remove_unresolved me types with
        | none => rw [ha] at h; exact absurd h (by simp)
        | some me2 =>
          rw [ha] at h
          cases hb : remove_unresolved_arms arms types with
          | none => rw [hb] at h; exact absurd h (by simp)
          | some arms2 =>
            rw [hb] at h
            simp only [Option.some.injEq] at h
            subst h
            simp [exp_hasUU, node_hasUU, ht2,
              remove_unresolved_noUU me types me2 hty ha,
              remove_unresolved_arms_noUU arms types arms2 hty hb]
      | function arg fe =>
        dsimp only at h
        cases ha : remove_unresolved fe types with
        | none => rw [ha] at h; exact absurd h (by simp)
        | some fe2 =>
          rw [ha] at h
          simp only [Option.some.injEq] at h
          subst h
          simp [exp_hasUU, node_hasUU, ht2,
            remove_unresolved_noUU fe types fe2 hty ha]
      | application f x =>
        dsimp only at h
        cases ha : remove_unresolved f types with
        | none => rw [ha] at h; exact absurd h (by simp)
        | some f2 =>
          rw [ha] at h
          cases hb : remove_unresolved x types with
          | none => rw [hb] at h; exact absurd h (by simp)
          | some x2 =>
            rw [hb] at h
            simp only [Option.some.injEq] at h
            subst h
            simp [exp_hasUU, node_hasUU, ht2,
              remove_unresolved_noUU f types f2 hty ha,
              remove_unresolved_noUU x types x2 hty hb]
/-- Arm-list version of the substitution lemma. -/
theorem remove_unresolved_arms_noUU :
    ∀ (arms : Arms Annot) (types : List Ty) (arms2 : Arms Annot),
      (∀ (i : Nat) (v : Ty), types[i]? = some v → v.hasUU = false) →
      remove_unresolved_arms arms types = some arms2 → arms_hasUU arms2 = false
  | .nil, types, arms2, hty, h => by
    simp only [remove_unresolved_arms, Option.some.injEq] at h
    subst h
    rfl
  | .cons (.mk c (.union pexp) e) tl, types, arms2, hty, h => by
    simp only [remove_unresolved_arms] at h
    cases hp : remove_unresolved pexp types with
    | none => rw [hp] at h; exact absurd h (by simp)
    | some p2 =>
      rw [hp] at h
      dsimp only at h
      cases he : remove_unresolved e types with
      | none => rw [he] at h; exact absurd h (by simp)
      | some e2 =>
        rw [he] at h
        cases ht : remove_unresolved_arms tl types with
        | none => rw [ht] at h; exact absurd h (by simp)
        | some tl2 =>
          rw [ht] at h
          simp only [Option.some.injEq] at h
          subst h
          simp [arms_hasUU, remove_unresolved_noUU pexp types p2 hty hp,
            remove_unresolved_noUU e types e2 hty he,
            remove_unresolved_arms_noUU tl types tl2 hty ht]
  | .cons (.mk c .any e) tl, types, arms2, hty, h => by
    simp only [remove_unresolved_arms] at h
    cases he : remove_unresolved e types with
    | none => rw [he] at h; exact absurd h (by simp)
    | some e2 =>
      rw [he] at h
      cases ht : remove_unresolved_arms tl types with
      | none => rw [ht] at h; exact absurd h (by simp)
      | some tl2 =>
        rw [ht] at h
        simp only [Option.some.injEq] at h
        subst h
        simp [arms_hasUU, remove_unresolved_noUU e types e2 hty he,
          remove_unresolved_arms_noUU tl types tl2 hty ht]
end

/-- Claim C5: in resolve_unions, an UnresolvedUnion id (of index at least 2)
is substituted by Symbol exactly when id 0 is reachable from it along the
collected cast edges, every other UnresolvedUnion id is substituted by
Union, and the returned AST contains no UnresolvedUnion annotation. -/
theorem resolve_unions_spec (ast ast1 : Exp Annot) (n : Nat)
    (casts : List (Nat × Nat)) (types : List Ty) (ast2 : Exp Annot)
    (h1 : fix_ids ast 2 = some (ast1, n))
    (h2 : collect_casts ast1 (fun _ => none) none = some casts)
    (h3 : generate_resolved n casts = some types)
    (h4 : remove_unresolved ast1 types = some ast2) :
    resolve_unions ast = some ast2 ∧
    (∀ id, 2 ≤ id → id < n →
      ((types[id]? = some Ty.symbol ↔ ReachCast casts id 0) ∧
       (types[id]? = some Ty.union ↔ ¬ ReachCast casts id 0))) ∧
    exp_hasUU ast2 = false := by
  have hn : 2 ≤ n := fix_ids_count_le ast 2 ast1 n h1
  obtain ⟨hlen, hiff, hentries⟩ := generate_resolved_spec n casts types hn h3
  refine ⟨?_, hiff, ?_⟩
  · simp only [resolve_unions, h1, h2, h3, h4]
  · refine remove_unresolved_noUU ast1 types ast2 ?_ h4
    intro i v hv
    cases hentries i v hv with
    | inl hs => rw [hs]; rfl
    | inr hu => rw [hu]; rfl

/-- Witness for claim C5 at a one-node AST whose single unresolved union id
(2) reaches no Symbol constraint and resolves to Union. -/
theorem resolve_unions_spec_witness :
    fix_ids exC5 2 = some (exC5_fixed, 3) ∧
    collect_casts exC5_fixed (fun _ => none) none = some [] ∧
    generate_resolved 3 [] = some [Ty.symbol, Ty.union, Ty.union] ∧
    remove_unresolved exC5_fixed [Ty.symbol, Ty.union, Ty.union] = some exC5_out ∧
    resolve_unions exC5 = some exC5_out ∧
    exp_hasUU exC5_out = false :=
  ⟨by decide,
    by simp [collect_casts, exC5_fixed, collect_casts_in_type],
    by decide, by decide,
    (resolve_unions_spec exC5 exC5_fixed 3 [] [Ty.symbol, Ty.union, Ty.union]
      exC5_out (by decide)
      (by simp [collect_casts, exC5_fixed, collect_casts_in_type])
      (by decide) (by decide)).1,
    (resolve_unions_spec exC5 exC5_fixed 3 [] [Ty.symbol, Ty.union, Ty.union]
      exC5_out (by decide)
      (by simp [collect_casts, exC5_fixed, collect_casts_in_type])
      (by decide) (by decide)).2.2⟩
